import Mathlib

/-!
Verification of the treasury-document extraction core (section divider,
position-aware pattern matcher, layout detector, field extractors, and the
pattern-learning training service) against its natural-language specification.

Modelling conventions (shallow embedding):
* JS numbers appearing in the algorithms (percentages, confidences, scores,
  success rates) are modelled as rationals `ℚ`.  Every numeric equality the
  statements below compare is between syntactically identical arithmetic
  expressions on both sides, so the float/rational distinction is immaterial
  for the proved properties.
* A JS `RegExp` is used by the extraction code only through
  `content.match(pattern)` followed by a truthiness test on a capture group.
  We therefore embed a compiled regex as its matching function
  `PatternFun := String → Option String`, returning the relevant capture
  group of the first match (or `none` when there is no match / no group).
  Theorems quantify over these functions; concrete instantiations in
  witnesses and counterexamples agree with the real regexes on every string
  they are actually applied to in that computation.
* The fixed keyword tests of the section divider (`/customer/i`,
  `/office use only/i`, `/MR\s*\./i`, ...) are implemented concretely as
  case-insensitive substring / whitespace-run matchers over the ASCII
  fragment, mirroring the JS semantics on ASCII input.
* `patterns.indexOf(pattern)` inside the matcher loops equals the loop index
  because the JS pattern arrays always hold pairwise-distinct objects; the
  embedding therefore carries the index through the iteration.
-/

namespace Salamrfnd

/-! ## String utilities mirroring the JS string primitives used by the code -/

/-- The character class of JS `\s` restricted to ASCII. -/
def isWsChar (c : Char) : Bool :=
  c = ' ' || c = '\t' || c = '\n' || c = '\r' || c = '\x0b' || c = '\x0c'

/-- ASCII case lowering; agrees with JS `toLowerCase` on ASCII input. -/
def jsToLower (s : String) : String := String.mk (s.toList.map Char.toLower)

/-- JS `String.prototype.trim` over the ASCII whitespace fragment. -/
def jsTrim (s : String) : String :=
  String.mk (((s.toList.dropWhile isWsChar).reverse.dropWhile isWsChar).reverse)

/-- Split on a non-empty separator (fuel-driven structural recursion; the
fuel is always at least the input length plus one, so it never runs out). -/
def jsSplitList (sep : List Char) : Nat → List Char → List Char → List (List Char)
  | 0, l, acc => [acc.reverse ++ l]
  | fuel + 1, l, acc =>
    match l with
    | [] => [acc.reverse]
    | c :: cs =>
      if sep.isPrefixOf (c :: cs) then
        acc.reverse :: jsSplitList sep fuel ((c :: cs).drop sep.length) []
      else jsSplitList sep fuel cs (c :: acc)

/-- JS `String.prototype.split` with a non-empty separator string. -/
def jsSplit (s sep : String) : List String :=
  if sep.isEmpty then [s]
  else (jsSplitList sep.toList (s.toList.length + 1) s.toList []).map
    fun cs => String.mk cs

/-- JS `String.prototype.includes` (substring containment). -/
def strIncludes (s t : String) : Bool :=
  t.isEmpty || (jsSplit s t).length ≥ 2

/-- Case-insensitive containment, i.e. `s.toLowerCase().includes(t)` for a
lower-case literal `t`. -/
def ciIncludes (s t : String) : Bool := strIncludes (jsToLower s) t

/-- First index (in characters) at which `need` occurs in the list, as in JS
`indexOf`; `none` when absent. -/
def firstIdxOf (need : List Char) : List Char → Option Nat
  | [] => if need.isEmpty then some 0 else none
  | c :: cs =>
    if need.isPrefixOf (c :: cs) then some 0
    else (firstIdxOf need cs).map (· + 1)

/-- Drop a (possibly empty) whitespace run. -/
def dropWs (l : List Char) : List Char := l.dropWhile isWsChar

/-- Does `p` hold on some suffix of the character list?  Used to implement
`RegExp.prototype.test` for the fixed patterns of the section divider. -/
def anySuffix (p : List Char → Bool) : List Char → Bool
  | [] => p []
  | c :: cs => p (c :: cs) || anySuffix p cs

/-- Match a sequence of literal words separated by `\s+` at the head of the
list (the shape of `/Regional\s+Sales\s+Manager/i` and friends). -/
def wordsAt : List (List Char) → List Char → Bool
  | [], _ => true
  | [w], l => w.isPrefixOf l
  | w :: w2 :: ws, l =>
    w.isPrefixOf l &&
      (let rest := l.drop w.length
       match rest with
       | [] => false
       | c :: _ => isWsChar c && wordsAt (w2 :: ws) (dropWs rest))

/-- `/W1\s+W2.../i.test(content)` for lower-case literal words `ws`. -/
def testWords (ws : List String) (content : String) : Bool :=
  anySuffix (wordsAt (ws.map String.toList)) (jsToLower content).toList

/-- `/name\s*[:\.\s]/i.test(content)`: an occurrence of `name` followed by a
character in `[:\.\s]` possibly after further whitespace.  Since every
whitespace character is itself in the class, this is equivalent to `name`
followed by one character from the class. -/
def testNameLabel (content : String) : Bool :=
  anySuffix
    (fun l =>
      ("name".toList).isPrefixOf l &&
        match l.drop 4 with
        | [] => false
        | c :: _ => c = ':' || c = '.' || isWsChar c)
    (jsToLower content).toList

/-- `/MR\s*\./i.test(content)`. -/
def testMrDot (content : String) : Bool :=
  anySuffix
    (fun l =>
      ("mr".toList).isPrefixOf l &&
        match dropWs (l.drop 2) with
        | [] => false
        | c :: _ => c = '.')
    (jsToLower content).toList

/-! ## Data model -/

/-- `DocumentSection` from `types.ts`: a positional slice of the document. -/
structure DocumentSection where
  startPercentage : ℚ
  endPercentage : ℚ
  content : String
  isCustomerInfoSection : Bool := false
  isSignatureSection : Bool := false
deriving Repr, DecidableEq

/-- Midpoint of a section, the position the matcher reports. -/
def midpoint (s : DocumentSection) : ℚ :=
  (s.startPercentage + s.endPercentage) / 2

/-- Semantics of a compiled regex as used by the matcher: the designated
capture group of `content.match(pattern)`, `none` when there is no match or
the group is absent. -/
def PatternFun := String → Option String

/-- The guard `match && match[k]` of the source: the capture must exist and
be a non-empty string. -/
def hit (p : PatternFun) (content : String) : Option String :=
  match p content with
  | some g => if g = "" then none else some g
  | none => none

/-- First pattern (by list index) whose capture on `content` is non-empty,
with its index: the inner `for (const pattern of patterns)` loop. -/
def firstHit (patterns : List PatternFun) (content : String) : Option (Nat × String) :=
  go patterns 0
where
  go : List PatternFun → Nat → Option (Nat × String)
    | [], _ => none
    | p :: ps, i =>
      match hit p content with
      | some g => some (i, g)
      | none => go ps (i + 1)

/-- Scan a band's sections in index order, then patterns in list order:
the nested loops of each band of `findPatternInSections`. -/
def bandSearch (secs : List DocumentSection) (patterns : List PatternFun) :
    Option (DocumentSection × Nat × String) :=
  match secs with
  | [] => none
  | s :: ss =>
    match firstHit patterns s.content with
    | some (i, g) => some (s, i, g)
    | none => bandSearch ss patterns

/-- Result record of `findPatternInSections`. -/
structure FindResult where
  position : ℚ
  matched : Option String
  confidence : ℚ
  sectionType : Option String
deriving Repr, DecidableEq

/-! ## `findPatternInSections` (layoutDetection.ts) -/

/-- Band 1: the customer-information section (`sections.find(...)`). -/
def band1 (sections : List DocumentSection) (patterns : List PatternFun) :
    Option FindResult :=
  (sections.find? (fun s => s.isCustomerInfoSection)).bind fun ci =>
    (firstHit patterns ci.content).map fun ig =>
      ⟨midpoint ci, some ig.2, 95 - 5 * ig.1, some "customerInfo"⟩

/-- Band 2: top sections (`endPercentage <= 30`, not signature). -/
def band2 (sections : List DocumentSection) (patterns : List PatternFun) :
    Option FindResult :=
  (bandSearch
      (sections.filter fun s => decide (s.endPercentage ≤ 30) && !s.isSignatureSection)
      patterns).map fun r =>
    ⟨midpoint r.1, some r.2.2, 90 - 5 * r.2.1, some "top"⟩

/-- Band 3: middle sections (`30 < start`, `end < 70`, not signature). -/
def band3 (sections : List DocumentSection) (patterns : List PatternFun) :
    Option FindResult :=
  (bandSearch
      (sections.filter fun s =>
        decide (30 < s.startPercentage) && decide (s.endPercentage < 70) &&
          !s.isSignatureSection)
      patterns).map fun r =>
    ⟨midpoint r.1, some r.2.2, 80 - 5 * r.2.1, some "middle"⟩

/-- Band 4: any non-signature section. -/
def band4 (sections : List DocumentSection) (patterns : List PatternFun) :
    Option FindResult :=
  (bandSearch (sections.filter fun s => !s.isSignatureSection) patterns).map fun r =>
    ⟨midpoint r.1, some r.2.2, 75 - 7 * r.2.1, none⟩

/-- Band 5: signature sections, last resort. -/
def band5 (sections : List DocumentSection) (patterns : List PatternFun) :
    Option FindResult :=
  (bandSearch (sections.filter fun s => s.isSignatureSection) patterns).map fun r =>
    ⟨midpoint r.1, some r.2.2, 30 - 5 * r.2.1, some "signature"⟩

/-- Concatenation of all section contents (`join('\n')`). -/
def combinedContent (sections : List DocumentSection) : String :=
  String.intercalate "\n" (sections.map fun s => s.content)

/-- Band 6: global fallback over the whole document, position fixed at 50. -/
def band6 (sections : List DocumentSection) (patterns : List PatternFun) :
    Option FindResult :=
  (firstHit patterns (combinedContent sections)).map fun ig =>
    ⟨50, some ig.2, 45 - 5 * ig.1, none⟩

/-- `findPatternInSections` of `layoutDetection.ts`: the six bands tried in
order, falling back to the not-found sentinel. -/
def findPatternInSections (sections : List DocumentSection)
    (patterns : List PatternFun) : FindResult :=
  match band1 sections patterns with
  | some r => r
  | none =>
    match band2 sections patterns with
    | some r => r
    | none =>
      match band3 sections patterns with
      | some r => r
      | none =>
        match band4 sections patterns with
        | some r => r
        | none =>
          match band5 sections patterns with
          | some r => r
          | none =>
            match band6 sections patterns with
            | some r => r
            | none => ⟨-1, none, 0, none⟩

/-! ### Specification-side matcher (from the spec's band table), for C1 -/

/-- A confidence band as the spec's table describes it: a section filter,
a base confidence, a per-pattern-index decay, and a section-type tag. -/
def specBandList (sections : List DocumentSection) :
    List (List DocumentSection × ℚ × ℚ × Option String) :=
  [ (sections.filter fun s => s.isCustomerInfoSection, 95, 5, some "customerInfo"),
    (sections.filter fun s => decide (s.endPercentage ≤ 30) && !s.isSignatureSection,
      90, 5, some "top"),
    (sections.filter fun s =>
        decide (30 < s.startPercentage) && decide (s.endPercentage < 70) &&
          !s.isSignatureSection, 80, 5, some "middle"),
    (sections.filter fun s => !s.isSignatureSection, 75, 7, none),
    (sections.filter fun s => s.isSignatureSection, 30, 5, some "signature") ]

/-- Try the bands in order; the first section/pattern pair with a non-empty
capture wins immediately. -/
def specSearchBands (patterns : List PatternFun) :
    List (List DocumentSection × ℚ × ℚ × Option String) → Option FindResult
  | [] => none
  | (secs, base, step, tag) :: rest =>
    match bandSearch secs patterns with
    | some r => some ⟨midpoint r.1, some r.2.2, base - step * r.2.1, tag⟩
    | none => specSearchBands patterns rest

/-- The matcher as the specification words it: banded search in the fixed
order, then the whole-document fallback at position 50, then the sentinel. -/
def findPatternInSections_spec (sections : List DocumentSection)
    (patterns : List PatternFun) : FindResult :=
  match specSearchBands patterns (specBandList sections) with
  | some r => r
  | none =>
    match firstHit patterns (combinedContent sections) with
    | some ig => ⟨50, some ig.2, 45 - 5 * ig.1, none⟩
    | none => ⟨-1, none, 0, none⟩

/-! ## Section divider (layoutDetection.ts) -/

/-- The explicit customer-information header patterns (all of them literal
substrings up to case). -/
def customerHeaderTest (content : String) : Bool :=
  ciIncludes content "customer information" ||
  ciIncludes content "customer information" ||
  ciIncludes content "customer details" ||
  ciIncludes content "client details"

/-- The general customer keywords, including the Arabic variants (the `i`
flag is a no-op on Arabic, so they are plain substrings). -/
def customerKeywordTest (content : String) : Bool :=
  ciIncludes content "customer information" ||
  ciIncludes content "customer info" ||
  ciIncludes content "client information" ||
  strIncludes (jsToLower content) "بيانات العميل" ||
  strIncludes (jsToLower content) "معلومات العميل" ||
  ciIncludes content "customer"

/-- The customer-data-field heuristic: a `name` label together with a title,
phone, or service-number marker. -/
def customerFieldHeuristic (content : String) : Bool :=
  testNameLabel content &&
    (testMrDot content || ciIncludes content "phone" || ciIncludes content "ftth")

/-- `detectCustomerInfoSection`: scan the sections with `endPercentage ≤ 40`
first for header patterns, then keywords, then the field heuristic; default
to index 0.  `sections.findIndex(s => s === section)` recovers the original
index of a filtered element (the objects are pairwise distinct), which the
embedding carries via `enum`. -/
def detectCustomerInfoSection (sections : List DocumentSection) : Nat :=
  let topSections := sections.enum.filter fun p => decide (p.2.endPercentage ≤ 40)
  match topSections.find? (fun p => customerHeaderTest p.2.content) with
  | some p => p.1
  | none =>
    match topSections.find? (fun p => customerKeywordTest p.2.content) with
    | some p => p.1
    | none =>
      match topSections.find? (fun p => customerFieldHeuristic p.2.content) with
      | some p => p.1
      | none => 0

/-- The signature/office keyword list of `detectSignatureSection`. -/
def signatureKeywordTest (content : String) : Bool :=
  ciIncludes content "office use only" ||
  ciIncludes content "signature" ||
  ciIncludes content "sign" ||
  strIncludes (jsToLower content) "للاستعمال الرسمي" ||
  strIncludes (jsToLower content) "توقيع" ||
  ciIncludes content "office" ||
  ciIncludes content "office use only" ||
  testWords ["regional", "sales", "manager"] content ||
  testWords ["back", "office", "manager"] content ||
  testWords ["sales", "director"] content ||
  testWords ["customer", "operation"] content ||
  testWords ["customer", "signature"] content ||
  testWords ["technical", "report"] content

/-- The manager-name / signature-line heuristic of `detectSignatureSection`. -/
def signatureHeuristic (content : String) : Bool :=
  (ciIncludes content "manager" && ciIncludes content "name") ||
  ciIncludes content "director" ||
  ciIncludes content "signature:" ||
  (ciIncludes content "date:" && ciIncludes content "sign")

/-- `detectSignatureSection`: scan sections with `startPercentage ≥ 50` for
the keywords, then the heuristic; `none` models the `-1` sentinel. -/
def detectSignatureSection (sections : List DocumentSection) : Option Nat :=
  let bottomSections := sections.enum.filter fun p => decide (50 ≤ p.2.startPercentage)
  match bottomSections.find? (fun p => signatureKeywordTest p.2.content) with
  | some p => some p.1
  | none =>
    (bottomSections.find? (fun p => signatureHeuristic p.2.content)).map fun p => p.1

/-- The untagged sections: section `i` covers lines
`[floor(i/count·L), floor((i+1)/count·L))` and percentages
`[i/count·100, (i+1)/count·100]`.  `Math.floor` of the float products is
modelled as the exact natural floor `i * L / count`. -/
def rawSections (text : String) (sectionCount : Nat) : List DocumentSection :=
  let lines := jsSplit text "\n"
  let totalLines := lines.length
  (List.range sectionCount).map fun i =>
    let startLine := i * totalLines / sectionCount
    let endLine := (i + 1) * totalLines / sectionCount
    { startPercentage := (i : ℚ) / (sectionCount : ℚ) * 100,
      endPercentage := ((i : ℚ) + 1) / (sectionCount : ℚ) * 100,
      content := String.intercalate "\n" ((lines.drop startLine).take (endLine - startLine)) }

/-- `sectionsArray[i].isCustomerInfoSection = true` (identity when the index
is out of range; the source only reaches it with a valid index). -/
def setFlagCI : List DocumentSection → Nat → List DocumentSection
  | [], _ => []
  | s :: ss, 0 => { s with isCustomerInfoSection := true } :: ss
  | s :: ss, n + 1 => s :: setFlagCI ss n

/-- `sectionsArray[i].isSignatureSection = true`. -/
def setFlagSig : List DocumentSection → Nat → List DocumentSection
  | [], _ => []
  | s :: ss, 0 => { s with isSignatureSection := true } :: ss
  | s :: ss, n + 1 => s :: setFlagSig ss n

/-- `divideDocumentIntoSections`: build the equal line-range sections, then
tag the detected customer-information section and (when found) the detected
signature section. -/
def divideDocumentIntoSections (text : String) (sectionCount : Nat) :
    List DocumentSection :=
  let arr := rawSections text sectionCount
  let arr1 := setFlagCI arr (detectCustomerInfoSection arr)
  match detectSignatureSection arr1 with
  | some j => setFlagSig arr1 j
  | none => arr1

/-! ## Layout detector (layoutDetection.ts) -/

/-- Expected location/tolerance pair of one field in a layout template. -/
structure SectionExpectation where
  expectedLocation : ℚ
  tolerance : ℚ
deriving Repr, DecidableEq

/-- `FormLayout` from `types.ts`. -/
structure FormLayout where
  name : String
  description : String
  nameSection : SectionExpectation
  amountSection : SectionExpectation
  ibanSection : SectionExpectation
  serviceNumberSection : SectionExpectation
deriving Repr, DecidableEq

/-- First catalog entry of `formLayouts`. -/
def standardLayout : FormLayout :=
  { name := "Standard Layout",
    description := "Standard form with name at top, IBAN in middle, amount in upper-middle",
    nameSection := ⟨15, 15⟩, amountSection := ⟨35, 15⟩,
    ibanSection := ⟨50, 20⟩, serviceNumberSection := ⟨75, 20⟩ }

/-- The static layout catalog `formLayouts` in source order. -/
def formLayouts : List FormLayout :=
  [ standardLayout,
    { name := "Compact Layout",
      description := "Compact form with all fields close together in upper portion",
      nameSection := ⟨15, 10⟩, amountSection := ⟨25, 10⟩,
      ibanSection := ⟨35, 10⟩, serviceNumberSection := ⟨45, 10⟩ },
    { name := "Extended Layout",
      description := "Extended form with fields spread throughout document",
      nameSection := ⟨10, 10⟩, amountSection := ⟨40, 20⟩,
      ibanSection := ⟨70, 20⟩, serviceNumberSection := ⟨85, 15⟩ },
    { name := "Reverse Layout",
      description := "Fields in reverse order with amount at bottom",
      nameSection := ⟨15, 15⟩, serviceNumberSection := ⟨40, 15⟩,
      ibanSection := ⟨65, 15⟩, amountSection := ⟨85, 15⟩ },
    { name := "Treasury Form",
      description := "Standard Treasury form with customer info at top and signatures at bottom",
      nameSection := ⟨20, 10⟩, amountSection := ⟨40, 15⟩,
      ibanSection := ⟨60, 20⟩, serviceNumberSection := ⟨25, 10⟩ },
    { name := "SCTTR Form",
      description := "Service Cancellation/Termination/Refund form with customer info at top section",
      nameSection := ⟨18, 8⟩, serviceNumberSection := ⟨18, 8⟩,
      amountSection := ⟨35, 12⟩, ibanSection := ⟨65, 15⟩ },
    { name := "Tabular Layout",
      description := "Form with fields arranged in a table-like structure",
      nameSection := ⟨22, 12⟩, serviceNumberSection := ⟨22, 12⟩,
      amountSection := ⟨50, 18⟩, ibanSection := ⟨70, 20⟩ },
    { name := "Custom Layout",
      description := "Custom layout detected from document patterns",
      nameSection := ⟨20, 30⟩, amountSection := ⟨40, 30⟩,
      ibanSection := ⟨60, 30⟩, serviceNumberSection := ⟨80, 30⟩ } ]

/-- `calculateLayoutMatchScore`: 0 when a position is missing, otherwise the
sum of the four 25-point linearly scaled field contributions. -/
def calculateLayoutMatchScore (namePos amountPos ibanPos servicePos : ℚ)
    (layout : FormLayout) : ℚ :=
  if namePos < 0 ∨ amountPos < 0 ∨ ibanPos < 0 ∨ servicePos < 0 then 0
  else
    let nameDev := |namePos - layout.nameSection.expectedLocation| / layout.nameSection.tolerance
    let amountDev := |amountPos - layout.amountSection.expectedLocation| / layout.amountSection.tolerance
    let ibanDev := |ibanPos - layout.ibanSection.expectedLocation| / layout.ibanSection.tolerance
    let serviceDev := |servicePos - layout.serviceNumberSection.expectedLocation| / layout.serviceNumberSection.tolerance
    25 * max 0 (1 - nameDev) + 25 * max 0 (1 - amountDev) +
      25 * max 0 (1 - ibanDev) + 25 * max 0 (1 - serviceDev)

/-- `detectFormLayout`: fold over the catalog keeping the strictly best
score, starting from `(formLayouts[0], 0)`. -/
def detectFormLayout (namePos amountPos ibanPos servicePos : ℚ) :
    FormLayout × ℚ :=
  formLayouts.foldl
    (fun bh layout =>
      let score := calculateLayoutMatchScore namePos amountPos ibanPos servicePos layout
      if bh.2 < score then (layout, score) else bh)
    (standardLayout, 0)

/-- The scoring formula exactly as the claim words it: any position equal to
`-1` forces 0, otherwise the four-field sum. -/
def layoutScore_spec (namePos amountPos ibanPos servicePos : ℚ)
    (layout : FormLayout) : ℚ :=
  if namePos = -1 ∨ amountPos = -1 ∨ ibanPos = -1 ∨ servicePos = -1 then 0
  else
    25 * max 0 (1 - |namePos - layout.nameSection.expectedLocation| / layout.nameSection.tolerance) +
    25 * max 0 (1 - |amountPos - layout.amountSection.expectedLocation| / layout.amountSection.tolerance) +
    25 * max 0 (1 - |ibanPos - layout.ibanSection.expectedLocation| / layout.ibanSection.tolerance) +
    25 * max 0 (1 - |servicePos - layout.serviceNumberSection.expectedLocation| / layout.serviceNumberSection.tolerance)

/-! ## Field extractors (extractors.ts)

Each extractor combines the trained patterns (a parameter, the registry's
current list for the field) with the built-in default patterns.  The fixed
regexes hard-coded in the extractor bodies are carried as an environment of
their matching functions. -/

/-- Field-level result record (`value`, `confidence`, `position`). -/
structure FieldResult where
  value : String
  confidence : ℚ
  position : ℚ
deriving Repr, DecidableEq

/-- The fixed regexes of `extractCustomerName` as matching functions:
`treasuryName` and `nameShape` return capture group 1, `title` returns
capture group 2 of the `MR./DR./MS./MRS.` pattern; `capShape` and `hasAlEl`
are the boolean shape tests used for confidence bonuses. -/
structure NameEnv where
  treasuryName : PatternFun
  title : PatternFun
  nameDefaults : List PatternFun
  capShape : String → Bool
  hasAlEl : String → Bool
  nameShape : PatternFun

/-- The filter of `topSectionsWithNameField`:
`/name\s*[:\.\s]/i || /MR\s*\./i || /customer/i`. -/
def nameFieldFilter (content : String) : Bool :=
  testNameLabel content || testMrDot content || ciIncludes content "customer"

/-- Customer-information phase of `extractCustomerName`: treasury name
pattern, then title pattern, then the combined name patterns, each at the
section midpoint. -/
def namePhaseCI (env : NameEnv) (namePatterns : List PatternFun)
    (sections : List DocumentSection) : Option FieldResult :=
  (sections.find? (fun s => s.isCustomerInfoSection)).bind fun ci =>
    match hit env.treasuryName ci.content with
    | some g => some ⟨jsTrim g, 98, midpoint ci⟩
    | none =>
      match hit env.title ci.content with
      | some g => some ⟨jsTrim g, 98, midpoint ci⟩
      | none =>
        (firstHit namePatterns ci.content).map fun ig => ⟨jsTrim ig.2, 95, midpoint ci⟩

/-- Per-section attempt used in the two top-section phases: title pattern
first, then the combined name patterns, at the given confidences. -/
def namePhaseSection (env : NameEnv) (namePatterns : List PatternFun)
    (cTitle cPattern : ℚ) (s : DocumentSection) : Option FieldResult :=
  match hit env.title s.content with
  | some g => some ⟨jsTrim g, cTitle, midpoint s⟩
  | none =>
    (firstHit namePatterns s.content).map fun ig => ⟨jsTrim ig.2, cPattern, midpoint s⟩

/-- Fallback phase of `extractCustomerName` through the generic matcher,
with the section-type and name-shape confidence adjustments. -/
def namePhaseMatcher (env : NameEnv) (namePatterns : List PatternFun)
    (sections : List DocumentSection) : Option FieldResult :=
  let result := findPatternInSections sections namePatterns
  result.matched.map fun m =>
    let name := jsTrim m
    let c1 := result.confidence
    let c2 :=
      if result.sectionType = some "customerInfo" then c1 + 15
      else if result.sectionType = some "top" then c1 + 10
      else if result.sectionType = some "signature" then c1 - 50
      else c1
    let c3 := if 3 < name.length ∧ name.length < 50 then c2 + 5 else c2
    let c4 := if env.capShape name then c3 + 5 else c3
    let c5 := if env.hasAlEl name then c4 + 8 else c4
    let c6 := if result.sectionType = some "signature" then min c5 40 else c5
    ⟨name, min c6 100, result.position⟩

/-- Absolute fallback of `extractCustomerName`: any capitalized-name-shaped
run in a non-signature section. -/
def namePhaseShape (env : NameEnv) (sections : List DocumentSection) :
    Option FieldResult :=
  (sections.filter fun s => !s.isSignatureSection).findSome? fun s =>
    (hit env.nameShape s.content).map fun g =>
      let c : ℚ :=
        if s.isCustomerInfoSection then 80
        else if s.endPercentage ≤ 30 then 70
        else 60
      ⟨jsTrim g, c, midpoint s⟩

/-- `extractCustomerName` (extractors.ts): customer-info section first, then
top sections with a name field, then the remaining top sections, then the
generic position-aware matcher, then the name-shape fallback, then the
not-found sentinel. -/
def extractCustomerName (env : NameEnv) (trained : List PatternFun)
    (sections : List DocumentSection) : FieldResult :=
  let namePatterns := trained ++ env.nameDefaults
  let topSections := sections.filter fun s =>
    decide (s.endPercentage ≤ 30) && !s.isSignatureSection
  let topSectionsWithNameField := topSections.filter fun s => nameFieldFilter s.content
  match namePhaseCI env namePatterns sections with
  | some r => r
  | none =>
    match topSectionsWithNameField.findSome?
        (namePhaseSection env namePatterns 95 90) with
    | some r => r
    | none =>
      match topSections.findSome? (namePhaseSection env namePatterns 85 80) with
      | some r => r
      | none =>
        match namePhaseMatcher env namePatterns sections with
        | some r => r
        | none =>
          match namePhaseShape env sections with
          | some r => r
          | none => ⟨"Unknown", 0, -1⟩

/-- Fixed regexes of `extractRefundAmount`: default pattern list, the
canonical `NNN.NN` shape test, and the bare-number fallback regex. -/
structure AmountEnv where
  amountDefaults : List PatternFun
  properShape : String → Bool
  bareNumber : PatternFun

/-- `extractRefundAmount`: generic matcher plus refund-context and format
bonuses, with the bare-number fallback. -/
def extractRefundAmount (env : AmountEnv) (trained : List PatternFun)
    (sections : List DocumentSection) : FieldResult :=
  let amountPatterns := trained ++ env.amountDefaults
  let result := findPatternInSections sections amountPatterns
  match result.matched with
  | some m =>
    let amount := jsTrim m
    let c1 := result.confidence
    let c2 :=
      match sections.find? (fun s => strIncludes s.content amount) with
      | some sec => if ciIncludes sec.content "refund" then c1 + 5 else c1
      | none => c1
    let c3 := if env.properShape amount then c2 + 5 else c2
    ⟨amount, min c3 100, result.position⟩
  | none =>
    match sections.findSome?
        (fun s => (hit env.bareNumber s.content).map fun n => (s, n)) with
    | some (s, n) =>
      let hasCurrencyContexts :=
        ciIncludes s.content "amount" || ciIncludes s.content "payment" ||
        ciIncludes s.content "total" || ciIncludes s.content "sum" ||
        ciIncludes s.content "sar" || ciIncludes s.content "refund"
      ⟨n, if hasCurrencyContexts then 60 else 40, midpoint s⟩
    | none => ⟨"0.00", 0, -1⟩

/-- Fixed regexes of `extractIBAN`: default pattern list, the perfect
`SA` + 22 digits shape test, and the loose `SA\d{10,}` fallback regex. -/
structure IbanEnv where
  ibanDefaults : List PatternFun
  perfectShape : String → Bool
  saLoose : PatternFun

/-- `extractIBAN`: generic matcher plus bank-context and format bonuses,
with the loose-IBAN fallback. -/
def extractIBAN (env : IbanEnv) (trained : List PatternFun)
    (sections : List DocumentSection) : FieldResult :=
  let ibanPatterns := trained ++ env.ibanDefaults
  let result := findPatternInSections sections ibanPatterns
  match result.matched with
  | some m =>
    let iban := jsTrim m
    let c1 := result.confidence
    let c2 :=
      match sections.find? (fun s => strIncludes s.content iban) with
      | some sec =>
        if ciIncludes sec.content "iban" || ciIncludes sec.content "bank" then c1 + 5
        else c1
      | none => c1
    let c3 := if env.perfectShape iban then c2 + 5 else c2
    ⟨iban, min c3 100, result.position⟩
  | none =>
    match sections.findSome?
        (fun s => (hit env.saLoose s.content).map fun n => (s, n)) with
    | some (s, n) => ⟨n, 60, midpoint s⟩
    | none => ⟨"Unknown", 0, -1⟩

/-- Fixed regexes of `extractServiceNumber`: default pattern list, the
canonical `FTTH` + 3–9 digits shape test, and the loose `FTTH\d+` fallback
regex. -/
structure ServiceEnv where
  serviceDefaults : List PatternFun
  canonicalShape : String → Bool
  ftthLoose : PatternFun

/-- `extractServiceNumber`: generic matcher plus service-context, format and
customer-info-band bonuses, with the loose-FTTH fallback. -/
def extractServiceNumber (env : ServiceEnv) (trained : List PatternFun)
    (sections : List DocumentSection) : FieldResult :=
  let servicePatterns := trained ++ env.serviceDefaults
  let result := findPatternInSections sections servicePatterns
  match result.matched with
  | some m =>
    let serviceNumber := jsTrim m
    let c1 := result.confidence
    let c2 :=
      match sections.find? (fun s => strIncludes s.content serviceNumber) with
      | some sec =>
        if ciIncludes sec.content "service" || ciIncludes sec.content "customer id" then c1 + 5
        else c1
      | none => c1
    let c3 := if env.canonicalShape serviceNumber then c2 + 5 else c2
    let c4 := if result.sectionType = some "customerInfo" then c3 + 10 else c3
    ⟨serviceNumber, min c4 100, result.position⟩
  | none =>
    match sections.findSome?
        (fun s => (hit env.ftthLoose s.content).map fun n => (s, n)) with
    | some (s, n) =>
      ⟨n, if s.isCustomerInfoSection then 85 else 70, midpoint s⟩
    | none => ⟨"Unknown", 0, -1⟩

/-! ## Training service (TrainingService.ts)

The `extractionPatterns` Dexie table is modelled as a list of records in
insertion order (`++ [p]` models `table.add`; a pointwise `map` models the
per-id `table.update`).  The `id`/`timestamp` columns play no role in any
claim and are omitted.  Regex matching of stored pattern strings against a
value (`new RegExp(p.patternRegex, 'i').test`-style use in
`updatePatternSuccessRates`, where a compile failure is caught and skips
the pattern) is carried as an oracle `rxMatches : String → String → Bool`. -/

/-- A stored extraction pattern record. -/
structure ExtractionPattern where
  fieldType : String
  patternRegex : String
  priority : Nat
  successRate : ℚ
  usageCount : Nat
deriving Repr, DecidableEq

/-- The characters escaped by `replace(/[-\/\\^$*+?.()|[\]{}]/g, '\\$&')`. -/
def regexSpecialChars : List Char :=
  ['-', '/', '\\', '^', '$', '*', '+', '?', '.', '(', ')', '|', '[', ']', '\x7b', '\x7d']

/-- Regex-escape a string as `learnNewPattern` does. -/
def escapeRegex (s : String) : String :=
  String.join (s.toList.map fun c =>
    if regexSpecialChars.contains c then String.mk ['\\', c] else String.singleton c)

/-- Capture-shape suffix appended per field type by `learnNewPattern`'s
`switch`; `none` models the untouched-`patternRegex` default branch. -/
def fieldShapeSuffix (fieldType : String) : Option String :=
  if fieldType = "customerName" then some "\\s*([A-Za-z\\s.\x27-]+)"
  else if fieldType = "refundAmount" then some "\\s*(?:SAR|SR|ر.س.|﷼)?\\s*([0-9,.]+)"
  else if fieldType = "ibanNumber" then some "\\s*(SA\\d\x7b22\x7d)"
  else if fieldType = "customerServiceNumber" then some "\\s*(FTTH\\d+)"
  else none

/-- Pattern synthesized from one context line: when the line contains the
correct value (case-insensitively) with non-blank preceding text, the
escaped trimmed prefix followed by the field's capture shape. -/
def synthFromLine (fieldType line correctValue : String) : Option String :=
  match firstIdxOf (jsToLower correctValue).toList (jsToLower line).toList with
  | none => none
  | some idx =>
    let beforeValue := String.mk (line.toList.take idx)
    if jsTrim beforeValue = "" then none
    else
      match fieldShapeSuffix fieldType with
      | none => none
      | some suffix => some (escapeRegex (jsTrim beforeValue) ++ suffix)

/-- `db.extractionPatterns.where('patternRegex').equals(r).count() === 0`
followed by `add`: append a fresh priority-5 / successRate-60 pattern unless
a pattern with the identical regex string (under any field type) exists. -/
def insertIfNew (db : List ExtractionPattern) (fieldType regex : String) :
    List ExtractionPattern :=
  if db.any (fun p => p.patternRegex = regex) then db
  else db ++ [⟨fieldType, regex, 5, 60, 1⟩]

/-- One iteration of `learnNewPattern`'s line loop. -/
def learnStep (fieldType correctValue : String)
    (acc : List ExtractionPattern) (line : String) : List ExtractionPattern :=
  match synthFromLine fieldType line correctValue with
  | none => acc
  | some regex => insertIfNew acc fieldType regex

/-- `learnNewPattern`: scan every line of the context and insert the
synthesized pattern of each qualifying line that is not already stored. -/
def learnNewPattern (db : List ExtractionPattern)
    (fieldType context correctValue : String) : List ExtractionPattern :=
  (jsSplit context "\n").foldl (learnStep fieldType correctValue) db

/-- The learning rate `this.learningRate = 0.1`. -/
def learningRate : ℚ := 1 / 10

/-- `updatePatternSuccessRates`: every stored pattern of the field type whose
regex matches the original value gets the exponential-moving-average update
and an incremented usage count; compile failures are absorbed by the oracle
returning `false`. -/
def updatePatternSuccessRates (rxMatches : String → String → Bool)
    (db : List ExtractionPattern) (fieldType originalValue correctedValue : String) :
    List ExtractionPattern :=
  db.map fun p =>
    if p.fieldType = fieldType && rxMatches p.patternRegex originalValue then
      { p with
          successRate := p.successRate * (1 - learningRate) +
            (if originalValue = correctedValue then 100 else 0) * learningRate,
          usageCount := p.usageCount + 1 }
    else p

/-- The pattern-table effect of the learning phase of `recordCorrection`:
`addTrainingExample` calls `learnNewPattern` when a context is supplied
(`undefined`/empty string is falsy), and `recordCorrection` calls it again
directly. -/
def learnPhase (db : List ExtractionPattern)
    (fieldType correctedValue : String) (context : Option String) :
    List ExtractionPattern :=
  match context with
  | some ctx =>
    if ctx = "" then db
    else
      let db1 := learnNewPattern db fieldType ctx correctedValue
      learnNewPattern db1 fieldType ctx correctedValue
  | none => db

/-- The pattern-table effect of `recordCorrection`: the learning phase
followed by the success-rate update (the correction-history and
training-example tables do not feed back into the pattern table). -/
def recordCorrection (rxMatches : String → String → Bool)
    (db : List ExtractionPattern)
    (fieldType originalValue correctedValue : String) (context : Option String) :
    List ExtractionPattern :=
  updatePatternSuccessRates rxMatches
    (learnPhase db fieldType correctedValue context)
    fieldType originalValue correctedValue

/-- In-memory state relevant to `getPatterns`: the `initialized` flag and
the `patternRegistry` map (an association list keyed by field type). -/
structure TrainingServiceState where
  initialized : Bool
  patternRegistry : List (String × List PatternFun)

/-- `getPatterns`: empty list before initialization, and
`patternRegistry.get(fieldType) || []` afterwards.  The embedding is a total
function — no exception path exists in the source either. -/
def getPatterns (st : TrainingServiceState) (fieldType : String) :
    List PatternFun :=
  if !st.initialized then []
  else
    match st.patternRegistry.lookup fieldType with
    | some ps => ps
    | none => []

/-! ## Concrete instantiations for the C5 counterexample

A single signature-tagged section with content `"q"` and a single trained
registry pattern, the regex `(q)` compiled case-insensitively, whose
matching function on `"q"` returns the capture `"q"`.  Every oracle below
agrees with the corresponding source regex on every string it is applied to
in this run: the ten built-in default name patterns are never consulted
(the trained pattern, tried first, already matches), the treasury/title/
name-shape patterns are never applied (no customer-info or top section),
and the capitalised-shape and Al/El bonus tests are applied only to `"q"`,
which they reject. -/

def sigSectionCE : DocumentSection :=
  { startPercentage := 75, endPercentage := 100, content := "q",
    isCustomerInfoSection := false, isSignatureSection := true }

def pCE : PatternFun := fun s => if s = "q" then some "q" else none

def nameEnvCE : NameEnv :=
  { treasuryName := fun _ => none, title := fun _ => none, nameDefaults := [],
    capShape := fun _ => false, hasAlEl := fun _ => false,
    nameShape := fun _ => none }

/-- The values `extractCustomerName` can return from the customer-info
phase: the trimmed treasury-pattern capture, the trimmed title capture, or
the trimmed capture of the first matching combined name pattern, all taken
from the customer-information section's content. -/
def ciNameCandidates (env : NameEnv) (pats : List PatternFun)
    (content : String) : List String :=
  ((hit env.treasuryName content).toList ++ (hit env.title content).toList ++
    ((firstHit pats content).map (fun ig => ig.2)).toList).map jsTrim

/-- Concrete data for the C2 witness: a customer-info-tagged section whose
content matches the treasury name pattern (its matching function agrees
with the source regex on `"Name: Bob"`). -/
def ciSecCE : DocumentSection :=
  { startPercentage := 0, endPercentage := 10, content := "Name: Bob",
    isCustomerInfoSection := true, isSignatureSection := false }

def nameEnvCE2 : NameEnv :=
  { treasuryName := fun s => if s = "Name: Bob" then some "Bob" else none,
    title := fun _ => none, nameDefaults := [],
    capShape := fun _ => false, hasAlEl := fun _ => false,
    nameShape := fun _ => none }

/-- The stored regex strings of a registry state. -/
def regexes (db : List ExtractionPattern) : List String :=
  db.map fun p => p.patternRegex

/-- The regexes `learnNewPattern` synthesizes, one per qualifying line. -/
def synthRegexes (fieldType context correctValue : String) : List String :=
  (jsSplit context "\n").filterMap fun line =>
    synthFromLine fieldType line correctValue

/-- Registry for the C7 counterexample: the regex `learnNewPattern` would
synthesize for `customerName` from context `"ab: John"` is already stored,
but under the `refundAmount` field type. -/
def dbCE7 : List ExtractionPattern :=
  [⟨"refundAmount", "ab:" ++ "\\s*([A-Za-z\\s.\x27-]+)", 1, 95, 10⟩]

/-- Registry, matcher oracle and arguments for the C8 witness. -/
def dbCE8 : List ExtractionPattern := [⟨"customerName", "x", 1, 80, 2⟩]

/-! ## Helper lemmas: section divider -/

/-- The percentage skeleton of a section list. -/
def percentages (l : List DocumentSection) : List (ℚ × ℚ) :=
  l.map fun s => (s.startPercentage, s.endPercentage)

theorem setFlagCI_percentages (l : List DocumentSection) (n : Nat) :
    percentages (setFlagCI l n) = percentages l := by
  induction l generalizing n with
  | nil => rfl
  | cons s ss ih =>
    cases n with
    | zero => simp [setFlagCI, percentages]
    | succ m =>
      simp only [setFlagCI, percentages, List.map_cons]
      exact congrArg _ (ih m)

theorem setFlagSig_percentages (l : List DocumentSection) (n : Nat) :
    percentages (setFlagSig l n) = percentages l := by
  induction l generalizing n with
  | nil => rfl
  | cons s ss ih =>
    cases n with
    | zero => simp [setFlagSig, percentages]
    | succ m =>
      simp only [setFlagSig, percentages, List.map_cons]
      exact congrArg _ (ih m)

theorem rawSections_percentages (text : String) (c : Nat) :
    percentages (rawSections text c) =
      (List.range c).map fun i : Nat => ((i : ℚ) / (c : ℚ) * 100, ((i : ℚ) + 1) / (c : ℚ) * 100) := by
  simp only [percentages, rawSections, List.map_map]
  rfl

theorem divide_eq (text : String) (c : Nat) :
    divideDocumentIntoSections text c =
      (match detectSignatureSection (setFlagCI (rawSections text c)
          (detectCustomerInfoSection (rawSections text c))) with
        | some j => setFlagSig (setFlagCI (rawSections text c)
            (detectCustomerInfoSection (rawSections text c))) j
        | none => setFlagCI (rawSections text c)
            (detectCustomerInfoSection (rawSections text c))) := rfl

theorem percentages_matchSig (l : List DocumentSection) (o : Option Nat) :
    percentages (match o with | some j => setFlagSig l j | none => l) =
      percentages l := by
  cases o with
  | none => rfl
  | some j => exact setFlagSig_percentages l j

theorem divide_percentages (text : String) (c : Nat) :
    percentages (divideDocumentIntoSections text c) =
      (List.range c).map fun i : Nat => ((i : ℚ) / (c : ℚ) * 100, ((i : ℚ) + 1) / (c : ℚ) * 100) := by
  rw [divide_eq, percentages_matchSig, setFlagCI_percentages, rawSections_percentages]

theorem divide_length (text : String) (c : Nat) :
    (divideDocumentIntoSections text c).length = c := by
  have h := congrArg List.length (divide_percentages text c)
  simp only [percentages, List.length_map, List.length_range] at h
  exact h

theorem divide_get_pcts (text : String) (c i : Nat)
    (h : i < (divideDocumentIntoSections text c).length) :
    ((divideDocumentIntoSections text c).get ⟨i, h⟩).startPercentage =
        (i : ℚ) / (c : ℚ) * 100 ∧
      ((divideDocumentIntoSections text c).get ⟨i, h⟩).endPercentage =
        ((i : ℚ) + 1) / (c : ℚ) * 100 := by
  have hi : i < c := by
    have := divide_length text c; omega
  have h1 : (percentages (divideDocumentIntoSections text c))[i]? =
      some ((i : ℚ) / (c : ℚ) * 100, ((i : ℚ) + 1) / (c : ℚ) * 100) := by
    rw [divide_percentages, List.getElem?_map, List.getElem?_range]
    · simp
    · exact hi
  have h2 : (percentages (divideDocumentIntoSections text c))[i]? =
      some ((((divideDocumentIntoSections text c).get ⟨i, h⟩).startPercentage,
        ((divideDocumentIntoSections text c).get ⟨i, h⟩).endPercentage)) := by
    rw [percentages, List.getElem?_map, List.getElem?_eq_getElem h]
    simp [List.get_eq_getElem]
  rw [h1] at h2
  have h3 := Option.some.inj h2
  exact ⟨(congrArg Prod.fst h3).symm, (congrArg Prod.snd h3).symm⟩

/-- C4: for every text and every `sectionCount ≥ 1`,
`divideDocumentIntoSections` returns exactly `sectionCount` sections, the
first starting at 0, the last ending at 100, and adjacent sections sharing
their boundary percentage. -/
theorem C4_divide_covers (text : String) (c : Nat) (hc : 1 ≤ c) :
    (divideDocumentIntoSections text c).length = c ∧
    (∀ h : 0 < (divideDocumentIntoSections text c).length,
      ((divideDocumentIntoSections text c).get ⟨0, h⟩).startPercentage = 0) ∧
    (∀ h : divideDocumentIntoSections text c ≠ [],
      ((divideDocumentIntoSections text c).getLast h).endPercentage = 100) ∧
    (∀ i, ∀ h : i + 1 < (divideDocumentIntoSections text c).length,
      ((divideDocumentIntoSections text c).get
          ⟨i, Nat.lt_of_succ_lt h⟩).endPercentage =
        ((divideDocumentIntoSections text c).get ⟨i + 1, h⟩).startPercentage) := by
  have hc0 : (c : ℚ) ≠ 0 := by
    have : (0 : ℚ) < (c : ℚ) := by exact_mod_cast hc
    exact this.ne'
  refine ⟨divide_length text c, ?_, ?_, ?_⟩
  · intro h
    rw [(divide_get_pcts text c 0 h).1]
    simp
  · intro h
    rw [List.getLast_eq_get]
    have hlen : (divideDocumentIntoSections text c).length = c := divide_length text c
    have hlt : (divideDocumentIntoSections text c).length - 1 <
        (divideDocumentIntoSections text c).length := by
      have : 0 < (divideDocumentIntoSections text c).length := by
        rw [hlen]; exact hc
      omega
    rw [(divide_get_pcts text c _ hlt).2]
    have hidx : (divideDocumentIntoSections text c).length - 1 = c - 1 := by rw [hlen]
    rw [hidx]
    have hcast : ((c - 1 : Nat) : ℚ) + 1 = (c : ℚ) := by
      have : ((c - 1 : Nat) : ℚ) = (c : ℚ) - 1 := by
        push_cast [Nat.cast_sub hc]
        ring
      rw [this]; ring
    rw [hcast, div_self hc0]
    norm_num
  · intro i h
    rw [(divide_get_pcts text c i (Nat.lt_of_succ_lt h)).2,
      (divide_get_pcts text c (i + 1) h).1]
    push_cast
    ring

/-- Witness for C4 at a concrete document and section count. -/
theorem C4_divide_covers_witness :
    1 ≤ 2 ∧
    ((divideDocumentIntoSections "a\nb\nc\nd" 2).length = 2 ∧
      (∀ h : 0 < (divideDocumentIntoSections "a\nb\nc\nd" 2).length,
        ((divideDocumentIntoSections "a\nb\nc\nd" 2).get ⟨0, h⟩).startPercentage = 0) ∧
      (∀ h : divideDocumentIntoSections "a\nb\nc\nd" 2 ≠ [],
        ((divideDocumentIntoSections "a\nb\nc\nd" 2).getLast h).endPercentage = 100) ∧
      (∀ i, ∀ h : i + 1 < (divideDocumentIntoSections "a\nb\nc\nd" 2).length,
        ((divideDocumentIntoSections "a\nb\nc\nd" 2).get
            ⟨i, Nat.lt_of_succ_lt h⟩).endPercentage =
          ((divideDocumentIntoSections "a\nb\nc\nd" 2).get ⟨i + 1, h⟩).startPercentage)) :=
  ⟨by decide, C4_divide_covers "a\nb\nc\nd" 2 (by decide)⟩

/-! ## Helper lemmas: section tagging (for C9) -/

theorem mem_enum_spec {α : Type _} {l : List α} {i : Nat} {a : α}
    (h : (i, a) ∈ l.enum) : ∃ hb : i < l.length, a = l.get ⟨i, hb⟩ := by
  have h2 := List.mem_enumFrom (show (i, a) ∈ l.enumFrom 0 from h)
  obtain ⟨-, hlt, heq⟩ := h2
  have hb : i < l.length := by simpa using hlt
  refine ⟨hb, ?_⟩
  simpa [List.get_eq_getElem] using heq

theorem detectCI_lt (l : List DocumentSection) (hl : 0 < l.length) :
    detectCustomerInfoSection l < l.length := by
  unfold detectCustomerInfoSection
  cases h1 : (l.enum.filter fun p => decide (p.2.endPercentage ≤ 40)).find?
      (fun p => customerHeaderTest p.2.content) with
  | some p =>
    simp only [h1]
    have hm := (List.mem_filter.mp (List.mem_of_find?_eq_some h1)).1
    obtain ⟨hb, -⟩ := mem_enum_spec (l := l) (i := p.1) (a := p.2) hm
    exact hb
  | none =>
    simp only [h1]
    cases h2 : (l.enum.filter fun p => decide (p.2.endPercentage ≤ 40)).find?
        (fun p => customerKeywordTest p.2.content) with
    | some p =>
      simp only [h2]
      have hm := (List.mem_filter.mp (List.mem_of_find?_eq_some h2)).1
      obtain ⟨hb, -⟩ := mem_enum_spec (l := l) (i := p.1) (a := p.2) hm
      exact hb
    | none =>
      simp only [h2]
      cases h3 : (l.enum.filter fun p => decide (p.2.endPercentage ≤ 40)).find?
          (fun p => customerFieldHeuristic p.2.content) with
      | some p =>
        simp only [h3]
        have hm := (List.mem_filter.mp (List.mem_of_find?_eq_some h3)).1
        obtain ⟨hb, -⟩ := mem_enum_spec (l := l) (i := p.1) (a := p.2) hm
        exact hb
      | none =>
        simp only [h3]
        exact hl

theorem detectSig_spec (l : List DocumentSection) {j : Nat}
    (h : detectSignatureSection l = some j) :
    ∃ hb : j < l.length,
      50 ≤ (l.get ⟨j, hb⟩).startPercentage ∧
        (signatureKeywordTest (l.get ⟨j, hb⟩).content = true ∨
          signatureHeuristic (l.get ⟨j, hb⟩).content = true) := by
  unfold detectSignatureSection at h
  cases h1 : (l.enum.filter fun p => decide (50 ≤ p.2.startPercentage)).find?
      (fun p => signatureKeywordTest p.2.content) with
  | some p =>
    simp only [h1] at h
    have hmem := List.mem_of_find?_eq_some h1
    have htest := List.find?_some h1
    have hfil := List.mem_filter.mp hmem
    obtain ⟨hb, heq⟩ := mem_enum_spec (l := l) (i := p.1) (a := p.2) hfil.1
    have hj : p.1 = j := Option.some.inj h
    subst hj
    refine ⟨hb, ?_, Or.inl ?_⟩
    · have := of_decide_eq_true hfil.2
      rw [heq] at this
      exact this
    · rw [heq] at htest
      exact htest
  | none =>
    simp only [h1] at h
    cases h2 : (l.enum.filter fun p => decide (50 ≤ p.2.startPercentage)).find?
        (fun p => signatureHeuristic p.2.content) with
    | some p =>
      simp only [h2] at h
      have hmem := List.mem_of_find?_eq_some h2
      have htest := List.find?_some h2
      have hfil := List.mem_filter.mp hmem
      obtain ⟨hb, heq⟩ := mem_enum_spec (l := l) (i := p.1) (a := p.2) hfil.1
      have hj : p.1 = j := Option.some.inj h
      subst hj
      refine ⟨hb, ?_, Or.inr ?_⟩
      · have := of_decide_eq_true hfil.2
        rw [heq] at this
        exact this
      · rw [heq] at htest
        exact htest
    | none => simp [h2] at h

theorem rawSections_flags (text : String) (c : Nat) :
    ∀ s ∈ rawSections text c,
      s.isCustomerInfoSection = false ∧ s.isSignatureSection = false := by
  intro s hs
  rw [rawSections, List.mem_map] at hs
  obtain ⟨i, -, rfl⟩ := hs
  exact ⟨rfl, rfl⟩

theorem setFlagCI_countP_CI (l : List DocumentSection) (n : Nat)
    (h0 : l.countP (fun s => s.isCustomerInfoSection) = 0) (hn : n < l.length) :
    (setFlagCI l n).countP (fun s => s.isCustomerInfoSection) = 1 := by
  induction l generalizing n with
  | nil => simp at hn
  | cons s ss ih =>
    rw [List.countP_cons] at h0
    cases n with
    | zero =>
      simp only [setFlagCI, List.countP_cons]
      have h1 : ss.countP (fun s => s.isCustomerInfoSection) = 0 := by omega
      simp [h1]
    | succ m =>
      simp only [setFlagCI, List.countP_cons]
      have h1 : ss.countP (fun s => s.isCustomerInfoSection) = 0 := by omega
      have h2 : s.isCustomerInfoSection = false := by
        by_cases hb : s.isCustomerInfoSection <;> simp [hb] at h0 ⊢
      rw [ih m h1 (by simp only [List.length_cons] at hn; omega)]
      simp [h2]

theorem setFlagSig_countP_CI (l : List DocumentSection) (n : Nat) :
    (setFlagSig l n).countP (fun s => s.isCustomerInfoSection) =
      l.countP (fun s => s.isCustomerInfoSection) := by
  induction l generalizing n with
  | nil => rfl
  | cons s ss ih =>
    cases n with
    | zero => simp [setFlagSig, List.countP_cons]
    | succ m => simp [setFlagSig, List.countP_cons, ih]

theorem setFlagCI_countP_Sig (l : List DocumentSection) (n : Nat) :
    (setFlagCI l n).countP (fun s => s.isSignatureSection) =
      l.countP (fun s => s.isSignatureSection) := by
  induction l generalizing n with
  | nil => rfl
  | cons s ss ih =>
    cases n with
    | zero => simp [setFlagCI, List.countP_cons]
    | succ m => simp [setFlagCI, List.countP_cons, ih]

theorem setFlagSig_countP_Sig (l : List DocumentSection) (n : Nat) :
    (setFlagSig l n).countP (fun s => s.isSignatureSection) ≤
      l.countP (fun s => s.isSignatureSection) + 1 := by
  induction l generalizing n with
  | nil => simp [setFlagSig]
  | cons s ss ih =>
    cases n with
    | zero =>
      simp only [setFlagSig, List.countP_cons]
      by_cases hb : s.isSignatureSection <;> simp [hb]
    | succ m =>
      simp only [setFlagSig, List.countP_cons]
      have := ih m
      omega

theorem mem_setFlagSig (l : List DocumentSection) (n : Nat) :
    ∀ s ∈ setFlagSig l n,
      s ∈ l ∨ ∃ hb : n < l.length, s = { l.get ⟨n, hb⟩ with isSignatureSection := true } := by
  induction l generalizing n with
  | nil => intro s hs; simp [setFlagSig] at hs
  | cons a as ih =>
    cases n with
    | zero =>
      intro s hs
      rcases List.mem_cons.mp hs with h | h
      · exact Or.inr ⟨by simp, by simpa using h⟩
      · exact Or.inl (List.mem_cons_of_mem _ h)
    | succ m =>
      intro s hs
      rcases List.mem_cons.mp hs with h | h
      · exact Or.inl (h ▸ List.mem_cons_self _ _)
      · rcases ih m s h with h2 | ⟨hb, h3⟩
        · exact Or.inl (List.mem_cons_of_mem _ h2)
        · exact Or.inr ⟨by simpa using Nat.succ_lt_succ hb, by simpa using h3⟩

theorem mem_setFlagCI (l : List DocumentSection) (n : Nat) :
    ∀ s ∈ setFlagCI l n,
      (∃ t ∈ l, s.isSignatureSection = t.isSignatureSection ∧ s.content = t.content ∧
        s.startPercentage = t.startPercentage) := by
  induction l generalizing n with
  | nil => intro s hs; simp [setFlagCI] at hs
  | cons a as ih =>
    cases n with
    | zero =>
      intro s hs
      rcases List.mem_cons.mp hs with h | h
      · exact ⟨a, List.mem_cons_self _ _, by simp [h], by simp [h], by simp [h]⟩
      · exact ⟨s, List.mem_cons_of_mem _ h, rfl, rfl, rfl⟩
    | succ m =>
      intro s hs
      rcases List.mem_cons.mp hs with h | h
      · exact ⟨a, List.mem_cons_self _ _, by simp [h], by simp [h], by simp [h]⟩
      · obtain ⟨t, ht, h1, h2, h3⟩ := ih m s h
        exact ⟨t, List.mem_cons_of_mem _ ht, h1, h2, h3⟩

theorem setFlagSig_get_CI (l : List DocumentSection) (n i : Nat)
    (h : i < (setFlagSig l n).length) (h2 : i < l.length) :
    ((setFlagSig l n).get ⟨i, h⟩).isCustomerInfoSection =
      (l.get ⟨i, h2⟩).isCustomerInfoSection := by
  induction l generalizing n i with
  | nil => simp at h2
  | cons a as ih =>
    cases n with
    | zero =>
      cases i with
      | zero => rfl
      | succ k => simp [setFlagSig, List.get_cons_succ]
    | succ m =>
      cases i with
      | zero => rfl
      | succ k =>
        have hk : k < as.length := by simpa using h2
        have hk2 : k < (setFlagSig as m).length := by
          have hl := congrArg List.length (setFlagSig_percentages as m)
          simp only [percentages, List.length_map] at hl
          omega
        simpa [setFlagSig, List.get_cons_succ] using ih m k hk2 hk

theorem map_CI_setFlagSig (l : List DocumentSection) (n : Nat) :
    (setFlagSig l n).map (fun s => s.isCustomerInfoSection) =
      l.map (fun s => s.isCustomerInfoSection) := by
  induction l generalizing n with
  | nil => rfl
  | cons a as ih =>
    cases n with
    | zero => simp [setFlagSig]
    | succ m => simp [setFlagSig, ih]

theorem map_CI_setFlagCI_zero (l : List DocumentSection) (hl : l ≠ []) :
    ((setFlagCI l 0).map (fun s => s.isCustomerInfoSection))[0]? = some true := by
  cases l with
  | nil => exact absurd rfl hl
  | cons a as => simp [setFlagCI]

theorem divide_getElem0_CI (text : String) (c : Nat) (hc : 1 ≤ c)
    (hdet : detectCustomerInfoSection (rawSections text c) = 0) :
    ((divideDocumentIntoSections text c).map
        (fun s => s.isCustomerInfoSection))[0]? = some true := by
  have hne : rawSections text c ≠ [] := by
    have : (rawSections text c).length = c := by simp [rawSections]
    intro hcon
    rw [hcon] at this
    simp at this
    omega
  rw [divide_eq, hdet]
  cases hd : detectSignatureSection (setFlagCI (rawSections text c) 0) with
  | none =>
    show ((setFlagCI (rawSections text c) 0).map
      (fun s => s.isCustomerInfoSection))[0]? = some true
    exact map_CI_setFlagCI_zero _ hne
  | some j =>
    show ((setFlagSig (setFlagCI (rawSections text c) 0) j).map
      (fun s => s.isCustomerInfoSection))[0]? = some true
    rw [map_CI_setFlagSig]
    exact map_CI_setFlagCI_zero _ hne

theorem arr1_sig_false (text : String) (c : Nat) :
    ∀ s ∈ setFlagCI (rawSections text c) (detectCustomerInfoSection (rawSections text c)),
      s.isSignatureSection = false := by
  intro s hs
  obtain ⟨t, ht, h1, -, -⟩ := mem_setFlagCI _ _ s hs
  rw [h1]
  exact (rawSections_flags text c t ht).2

/-- C9: `divideDocumentIntoSections` tags exactly one customer-information
section and at most one signature section; the customer-information tag
defaults to section 0 when no section with `endPercentage ≤ 40` passes any
of the detection tests, and a section is signature-tagged only when it has
`startPercentage ≥ 50` and passes the signature keyword or heuristic test
(the `sectionCount ≥ 1` guard reflects that the source throws on an empty
section array before returning anything). -/
theorem C9_tagging (text : String) (c : Nat) (hc : 1 ≤ c) :
    (divideDocumentIntoSections text c).countP (fun s => s.isCustomerInfoSection) = 1 ∧
    (divideDocumentIntoSections text c).countP (fun s => s.isSignatureSection) ≤ 1 ∧
    ((∀ s ∈ rawSections text c, s.endPercentage ≤ 40 →
        customerHeaderTest s.content = false ∧ customerKeywordTest s.content = false ∧
          customerFieldHeuristic s.content = false) →
      ∀ h : 0 < (divideDocumentIntoSections text c).length,
        ((divideDocumentIntoSections text c).get ⟨0, h⟩).isCustomerInfoSection = true) ∧
    (∀ s ∈ divideDocumentIntoSections text c, s.isSignatureSection = true →
      50 ≤ s.startPercentage ∧
        (signatureKeywordTest s.content = true ∨ signatureHeuristic s.content = true)) := by
  have hrawlen : (rawSections text c).length = c := by
    simp [rawSections]
  have hrawpos : 0 < (rawSections text c).length := by omega
  have hk := detectCI_lt (rawSections text c) hrawpos
  have hraw0CI : (rawSections text c).countP (fun s => s.isCustomerInfoSection) = 0 := by
    rw [List.countP_eq_zero]
    intro s hs
    simp [(rawSections_flags text c s hs).1]
  have hraw0Sig : (rawSections text c).countP (fun s => s.isSignatureSection) = 0 := by
    rw [List.countP_eq_zero]
    intro s hs
    simp [(rawSections_flags text c s hs).2]
  have harr1CI : (setFlagCI (rawSections text c)
      (detectCustomerInfoSection (rawSections text c))).countP
        (fun s => s.isCustomerInfoSection) = 1 :=
    setFlagCI_countP_CI _ _ hraw0CI hk
  refine ⟨?_, ?_, ?_, ?_⟩
  · rw [divide_eq]
    cases hd : detectSignatureSection (setFlagCI (rawSections text c)
        (detectCustomerInfoSection (rawSections text c))) with
    | none => exact harr1CI
    | some j => rw [setFlagSig_countP_CI]; exact harr1CI
  · rw [divide_eq]
    have harr1Sig : (setFlagCI (rawSections text c)
        (detectCustomerInfoSection (rawSections text c))).countP
          (fun s => s.isSignatureSection) = 0 := by
      rw [setFlagCI_countP_Sig]
      exact hraw0Sig
    cases hd : detectSignatureSection (setFlagCI (rawSections text c)
        (detectCustomerInfoSection (rawSections text c))) with
    | none =>
      show (setFlagCI (rawSections text c)
          (detectCustomerInfoSection (rawSections text c))).countP
        (fun s => s.isSignatureSection) ≤ 1
      omega
    | some j =>
      show (setFlagSig (setFlagCI (rawSections text c)
          (detectCustomerInfoSection (rawSections text c))) j).countP
        (fun s => s.isSignatureSection) ≤ 1
      have := setFlagSig_countP_Sig (setFlagCI (rawSections text c)
        (detectCustomerInfoSection (rawSections text c))) j
      omega
  · intro hno h
    have hdet : detectCustomerInfoSection (rawSections text c) = 0 := by
      unfold detectCustomerInfoSection
      have hnone : ∀ (test : DocumentSection → Bool),
          (∀ s ∈ rawSections text c, s.endPercentage ≤ 40 → test s = false) →
          ((rawSections text c).enum.filter
              (fun p => decide (p.2.endPercentage ≤ 40))).find?
            (fun p => test p.2) = none := by
        intro test htest
        rw [List.find?_eq_none]
        intro p hp
        have hfil := List.mem_filter.mp hp
        obtain ⟨hb, heq⟩ := mem_enum_spec (l := rawSections text c)
          (i := p.1) (a := p.2) hfil.1
        have hmem : p.2 ∈ rawSections text c := by
          rw [heq]; exact List.get_mem _ _ _
        have hle : p.2.endPercentage ≤ 40 := of_decide_eq_true hfil.2
        simp [htest p.2 hmem hle]
      simp only [hnone _ (fun s hs hle => ((hno s hs hle).1)),
        hnone _ (fun s hs hle => ((hno s hs hle).2.1)),
        hnone _ (fun s hs hle => ((hno s hs hle).2.2))]
    have hmap := divide_getElem0_CI text c hc hdet
    have h1 : ((divideDocumentIntoSections text c).map
        (fun s => s.isCustomerInfoSection))[0]? =
        some ((divideDocumentIntoSections text c).get ⟨0, h⟩).isCustomerInfoSection := by
      rw [List.getElem?_map, List.getElem?_eq_getElem h]
      simp [List.get_eq_getElem]
    rw [hmap] at h1
    exact (Option.some.inj h1).symm
  · intro s hs hsig
    rw [divide_eq] at hs
    cases hd : detectSignatureSection (setFlagCI (rawSections text c)
        (detectCustomerInfoSection (rawSections text c))) with
    | none =>
      rw [hd] at hs
      have hmem0 : s ∈ setFlagCI (rawSections text c)
          (detectCustomerInfoSection (rawSections text c)) := hs
      have := arr1_sig_false text c s hmem0
      rw [this] at hsig
      cases hsig
    | some j =>
      rw [hd] at hs
      have hmem2 : s ∈ setFlagSig (setFlagCI (rawSections text c)
          (detectCustomerInfoSection (rawSections text c))) j := hs
      rcases mem_setFlagSig _ _ s hmem2 with hmem | ⟨hb, heq⟩
      · have := arr1_sig_false text c s hmem
        rw [this] at hsig
        cases hsig
      · obtain ⟨hb2, hstart, htests⟩ := detectSig_spec _ hd
        rw [heq]
        constructor
        · simpa using hstart
        · simpa using htests

/-- Witness for C9 at a concrete document. -/
theorem C9_tagging_witness :
    1 ≤ 3 ∧
    ((divideDocumentIntoSections "Customer: A\nB\nSignature: C" 3).countP
        (fun s => s.isCustomerInfoSection) = 1 ∧
      (divideDocumentIntoSections "Customer: A\nB\nSignature: C" 3).countP
        (fun s => s.isSignatureSection) ≤ 1 ∧
      ((∀ s ∈ rawSections "Customer: A\nB\nSignature: C" 3, s.endPercentage ≤ 40 →
          customerHeaderTest s.content = false ∧ customerKeywordTest s.content = false ∧
            customerFieldHeuristic s.content = false) →
        ∀ h : 0 < (divideDocumentIntoSections "Customer: A\nB\nSignature: C" 3).length,
          ((divideDocumentIntoSections "Customer: A\nB\nSignature: C" 3).get
              ⟨0, h⟩).isCustomerInfoSection = true) ∧
      (∀ s ∈ divideDocumentIntoSections "Customer: A\nB\nSignature: C" 3,
        s.isSignatureSection = true →
        50 ≤ s.startPercentage ∧
          (signatureKeywordTest s.content = true ∨ signatureHeuristic s.content = true))) :=
  ⟨by decide, C9_tagging "Customer: A\nB\nSignature: C" 3 (by decide)⟩

/-! ## Helper lemmas: layout detector (for C3) -/

theorem foldl_max_init_le (xs : List ℚ) (a : ℚ) : a ≤ xs.foldl max a := by
  induction xs generalizing a with
  | nil => exact le_refl a
  | cons x xs ih => exact le_trans (le_max_left a x) (ih (max a x))

theorem mem_le_foldl_max (xs : List ℚ) (a : ℚ) : ∀ x ∈ xs, x ≤ xs.foldl max a := by
  induction xs generalizing a with
  | nil => intro x hx; cases hx
  | cons y ys ih =>
    intro x hx
    rcases List.mem_cons.mp hx with rfl | hx
    · exact le_trans (le_max_right a x) (foldl_max_init_le ys _)
    · exact ih _ x hx

theorem find?_head {α : Type _} (p : α → Bool) (ls : List α) (hne : ls ≠ [])
    (hp : p (ls.head hne) = true) : ls.find? p = some (ls.head hne) := by
  cases ls with
  | nil => exact absurd rfl hne
  | cons a as =>
    simp only [List.head_cons] at hp ⊢
    exact List.find?_cons_of_pos _ hp

theorem detectFormLayout_eq (np ap ip sp : ℚ) :
    detectFormLayout np ap ip sp =
      formLayouts.foldl
        (fun bh l =>
          if bh.2 < calculateLayoutMatchScore np ap ip sp l
          then (l, calculateLayoutMatchScore np ap ip sp l) else bh)
        (standardLayout, 0) := rfl

theorem detect_foldl_snd (f : FormLayout → ℚ) (ls : List FormLayout)
    (b : FormLayout) (h : ℚ) :
    (ls.foldl (fun bh l => if bh.2 < f l then (l, f l) else bh) (b, h)).2 =
      (ls.map f).foldl max h := by
  induction ls generalizing b h with
  | nil => rfl
  | cons l ls ih =>
    simp only [List.foldl_cons, List.map_cons]
    by_cases hlt : h < f l
    · rw [if_pos hlt, ih]
      congr 1
      exact (max_eq_right hlt.le).symm
    · rw [if_neg hlt, ih]
      congr 1
      exact (max_eq_left (not_lt.mp hlt)).symm

theorem detect_foldl_fst (f : FormLayout → ℚ) (ls : List FormLayout)
    (b : FormLayout) (h : ℚ) :
    (h < (ls.map f).foldl max h →
      ls.find? (fun l => decide (f l = (ls.map f).foldl max h)) =
        some ((ls.foldl (fun bh l => if bh.2 < f l then (l, f l) else bh) (b, h)).1)) ∧
    ((ls.map f).foldl max h ≤ h →
      (ls.foldl (fun bh l => if bh.2 < f l then (l, f l) else bh) (b, h)).1 = b) := by
  induction ls generalizing b h with
  | nil =>
    exact ⟨fun hlt => absurd hlt (lt_irrefl h), fun _ => rfl⟩
  | cons l ls ih =>
    have hinit : f l ≤ (List.map f ls).foldl max (max h (f l)) :=
      le_trans (le_max_right h (f l)) (foldl_max_init_le _ _)
    constructor
    · intro hM
      simp only [List.map_cons, List.foldl_cons] at hM ⊢
      by_cases hlt : h < f l
      · rw [if_pos hlt]
        have hmaxr : max h (f l) = f l := max_eq_right hlt.le
        by_cases heq : f l = (List.map f ls).foldl max (max h (f l))
        · rw [List.find?_cons_of_pos _ (by simpa using heq)]
          have hstay := (ih l (f l)).2
          rw [hmaxr] at heq
          have := hstay (le_of_eq heq.symm)
          rw [this]
        · rw [List.find?_cons_of_neg _ (by simpa using heq)]
          have hlt2 : f l < (List.map f ls).foldl max (max h (f l)) :=
            lt_of_le_of_ne hinit heq
          have happ := (ih l (f l)).1
          rw [hmaxr] at hlt2
          simp only [hmaxr]
          exact happ hlt2
      · rw [if_neg hlt]
        have hmaxl : max h (f l) = h := max_eq_left (not_lt.mp hlt)
        rw [hmaxl] at hM
        simp only [hmaxl]
        have hne : ¬ (f l = (List.map f ls).foldl max h) := by
          intro heq
          have : f l ≤ h := not_lt.mp hlt
          rw [heq] at this
          exact absurd (lt_of_lt_of_le hM this) (lt_irrefl h)
        rw [List.find?_cons_of_neg _ (by simpa using hne)]
        exact (ih b h).1 hM
    · intro hMle
      simp only [List.map_cons, List.foldl_cons] at hMle ⊢
      by_cases hlt : h < f l
      · exfalso
        have hmaxr : max h (f l) = f l := max_eq_right hlt.le
        rw [hmaxr] at hMle
        have : f l ≤ h := le_trans (foldl_max_init_le _ _) hMle
        exact absurd (lt_of_lt_of_le hlt this) (lt_irrefl h)
      · rw [if_neg hlt]
        have hmaxl : max h (f l) = h := max_eq_left (not_lt.mp hlt)
        rw [hmaxl] at hMle
        exact (ih b h).2 hMle

theorem score_nonneg (np ap ip sp : ℚ) (layout : FormLayout) :
    0 ≤ calculateLayoutMatchScore np ap ip sp layout := by
  unfold calculateLayoutMatchScore
  split
  · exact le_refl 0
  · positivity

/-- C3: `detectFormLayout` scores every catalog template by the claim's
formula (given the positions are section midpoints or the `-1` sentinel,
so that the source's `< 0` test coincides with the claim's `= -1` test),
returns the first-seen template attaining the maximal score with the
confidence equal to that score, and degenerates to
`(formLayouts[0], 0)` with all-zero scores when a position is `-1`. -/
theorem C3_layout_detection (np ap ip sp : ℚ)
    (hn : np = -1 ∨ 0 ≤ np) (ha : ap = -1 ∨ 0 ≤ ap)
    (hi : ip = -1 ∨ 0 ≤ ip) (hs : sp = -1 ∨ 0 ≤ sp) :
    (∀ layout, calculateLayoutMatchScore np ap ip sp layout =
      layoutScore_spec np ap ip sp layout) ∧
    (detectFormLayout np ap ip sp).2 =
      (formLayouts.map (calculateLayoutMatchScore np ap ip sp)).foldl max 0 ∧
    formLayouts.find?
        (fun l => decide (calculateLayoutMatchScore np ap ip sp l =
          (detectFormLayout np ap ip sp).2)) =
      some (detectFormLayout np ap ip sp).1 ∧
    ((np = -1 ∨ ap = -1 ∨ ip = -1 ∨ sp = -1) →
      (∀ layout, calculateLayoutMatchScore np ap ip sp layout = 0) ∧
      (detectFormLayout np ap ip sp).2 = 0 ∧
      (detectFormLayout np ap ip sp).1 = standardLayout) := by
  have hiff : (np < 0 ∨ ap < 0 ∨ ip < 0 ∨ sp < 0) ↔
      (np = -1 ∨ ap = -1 ∨ ip = -1 ∨ sp = -1) := by
    constructor
    · rintro (hlt | hlt | hlt | hlt)
      · rcases hn with rfl | hge
        · exact Or.inl rfl
        · exact absurd (lt_of_le_of_lt hge hlt) (lt_irrefl 0)
      · rcases ha with rfl | hge
        · exact Or.inr (Or.inl rfl)
        · exact absurd (lt_of_le_of_lt hge hlt) (lt_irrefl 0)
      · rcases hi with rfl | hge
        · exact Or.inr (Or.inr (Or.inl rfl))
        · exact absurd (lt_of_le_of_lt hge hlt) (lt_irrefl 0)
      · rcases hs with rfl | hge
        · exact Or.inr (Or.inr (Or.inr rfl))
        · exact absurd (lt_of_le_of_lt hge hlt) (lt_irrefl 0)
    · rintro (rfl | rfl | rfl | rfl)
      · exact Or.inl (by norm_num)
      · exact Or.inr (Or.inl (by norm_num))
      · exact Or.inr (Or.inr (Or.inl (by norm_num)))
      · exact Or.inr (Or.inr (Or.inr (by norm_num)))
  have hscore : ∀ layout, calculateLayoutMatchScore np ap ip sp layout =
      layoutScore_spec np ap ip sp layout := by
    intro layout
    unfold calculateLayoutMatchScore layoutScore_spec
    rw [if_congr hiff rfl rfl]
  have hsnd : (detectFormLayout np ap ip sp).2 =
      (formLayouts.map (calculateLayoutMatchScore np ap ip sp)).foldl max 0 := by
    rw [detectFormLayout_eq]
    exact detect_foldl_snd _ _ _ _
  have hM0 : (0 : ℚ) ≤ (formLayouts.map
      (calculateLayoutMatchScore np ap ip sp)).foldl max 0 :=
    foldl_max_init_le _ _
  have hfst : formLayouts.find?
      (fun l => decide (calculateLayoutMatchScore np ap ip sp l =
        (detectFormLayout np ap ip sp).2)) =
      some (detectFormLayout np ap ip sp).1 := by
    rw [hsnd, detectFormLayout_eq]
    rcases lt_or_eq_of_le hM0 with hpos | hzero
    · exact (detect_foldl_fst _ formLayouts standardLayout 0).1 hpos
    · have hstay := (detect_foldl_fst (calculateLayoutMatchScore np ap ip sp)
        formLayouts standardLayout 0).2 (le_of_eq hzero.symm)
      rw [hstay]
      have hs0 : calculateLayoutMatchScore np ap ip sp standardLayout = 0 := by
        have hmem : calculateLayoutMatchScore np ap ip sp standardLayout ∈
            formLayouts.map (calculateLayoutMatchScore np ap ip sp) :=
          List.mem_map_of_mem _ (by simp [formLayouts])
        have hle := mem_le_foldl_max _ 0 _ hmem
        rw [← hzero] at hle
        exact le_antisymm hle (score_nonneg np ap ip sp standardLayout)
      have hne : formLayouts ≠ [] := by simp [formLayouts]
      have := find?_head
        (fun l => decide (calculateLayoutMatchScore np ap ip sp l =
          (formLayouts.map (calculateLayoutMatchScore np ap ip sp)).foldl max 0))
        formLayouts hne (decide_eq_true (hs0.trans hzero))
      exact this
  refine ⟨hscore, hsnd, hfst, ?_⟩
  intro hmiss
  have hzero : ∀ layout, calculateLayoutMatchScore np ap ip sp layout = 0 := by
    intro layout
    unfold calculateLayoutMatchScore
    rw [if_pos (hiff.mpr hmiss)]
  refine ⟨hzero, ?_, ?_⟩
  · rw [hsnd]
    have : formLayouts.map (calculateLayoutMatchScore np ap ip sp) =
        formLayouts.map (fun _ => (0 : ℚ)) := by
      apply List.map_congr_left
      intro l _
      exact hzero l
    rw [this]
    simp [formLayouts]
  · rw [detectFormLayout_eq]
    apply (detect_foldl_fst (calculateLayoutMatchScore np ap ip sp)
      formLayouts standardLayout 0).2
    have : formLayouts.map (calculateLayoutMatchScore np ap ip sp) =
        formLayouts.map (fun _ => (0 : ℚ)) := by
      apply List.map_congr_left
      intro l _
      exact hzero l
    rw [this]
    simp [formLayouts]

/-- Witness for C3 at the spec's scenario positions (18, 35, 65, 18). -/
theorem C3_layout_detection_witness :
    ((18 : ℚ) = -1 ∨ (0 : ℚ) ≤ 18) ∧
    ((∀ layout, calculateLayoutMatchScore 18 35 65 18 layout =
        layoutScore_spec 18 35 65 18 layout) ∧
      (detectFormLayout 18 35 65 18).2 =
        (formLayouts.map (calculateLayoutMatchScore 18 35 65 18)).foldl max 0 ∧
      formLayouts.find?
          (fun l => decide (calculateLayoutMatchScore 18 35 65 18 l =
            (detectFormLayout 18 35 65 18).2)) =
        some (detectFormLayout 18 35 65 18).1 ∧
      (((18 : ℚ) = -1 ∨ (35 : ℚ) = -1 ∨ (65 : ℚ) = -1 ∨ (18 : ℚ) = -1) →
        (∀ layout, calculateLayoutMatchScore 18 35 65 18 layout = 0) ∧
        (detectFormLayout 18 35 65 18).2 = 0 ∧
        (detectFormLayout 18 35 65 18).1 = standardLayout)) :=
  ⟨by norm_num,
    C3_layout_detection 18 35 65 18 (by norm_num) (by norm_num) (by norm_num) (by norm_num)⟩

/-! ## Helper lemmas: pattern matcher (for C1) -/

theorem filter_eq_find?_toList {α : Type _} (p : α → Bool) (l : List α)
    (h : l.countP p ≤ 1) : l.filter p = (l.find? p).toList := by
  induction l with
  | nil => rfl
  | cons a l ih =>
    by_cases hp : p a
    · rw [List.filter_cons_of_pos hp, List.find?_cons_of_pos _ hp]
      rw [List.countP_cons, if_pos hp] at h
      have h0 : l.countP p = 0 := by omega
      have hnil : l.filter p = [] := by
        have hlen := List.countP_eq_length_filter p l
        rw [h0] at hlen
        exact List.length_eq_zero.mp hlen.symm
      rw [hnil]
      rfl
    · rw [List.filter_cons_of_neg hp, List.find?_cons_of_neg _ hp]
      apply ih
      rw [List.countP_cons, if_neg hp] at h
      omega

theorem band1_eq_bandSearch (sections : List DocumentSection)
    (patterns : List PatternFun)
    (hci : sections.countP (fun s => s.isCustomerInfoSection) ≤ 1) :
    band1 sections patterns =
      (bandSearch (sections.filter fun s => s.isCustomerInfoSection) patterns).map
        (fun r => ⟨midpoint r.1, some r.2.2, 95 - 5 * r.2.1, some "customerInfo"⟩) := by
  rw [filter_eq_find?_toList _ _ hci]
  unfold band1
  cases hf : sections.find? (fun s => s.isCustomerInfoSection) with
  | none => rfl
  | some ci =>
    cases hh : firstHit patterns ci.content with
    | none => simp [bandSearch, hh, Option.toList]
    | some ig => simp [bandSearch, hh, Option.toList]

/-- C1: for every section list carrying at most one customer-information
tag (the divider's invariant) and every non-empty pattern list, the source's
`findPatternInSections` coincides with the specification's banded search:
customer-info (95, −5), top (90, −5), middle (80, −5), any non-signature
(75, −7), signature (30, −5), whole-document concatenation (45, −5 at
position 50), each band scanning sections in index order and patterns in
list order and returning on the first non-empty capture, with the
`(-1, null, 0)` sentinel when nothing matches. -/
theorem C1_matcher_refines_spec (sections : List DocumentSection)
    (patterns : List PatternFun) (hpat : patterns ≠ [])
    (hci : sections.countP (fun s => s.isCustomerInfoSection) ≤ 1) :
    findPatternInSections sections patterns =
      findPatternInSections_spec sections patterns := by
  unfold findPatternInSections findPatternInSections_spec
  simp only [specSearchBands, specBandList]
  rw [band1_eq_bandSearch sections patterns hci]
  unfold band2 band3 band4 band5 band6
  cases bandSearch (sections.filter fun s => s.isCustomerInfoSection) patterns <;>
    cases bandSearch (sections.filter fun s =>
      decide (s.endPercentage ≤ 30) && !s.isSignatureSection) patterns <;>
    cases bandSearch (sections.filter fun s =>
      decide (30 < s.startPercentage) && decide (s.endPercentage < 70) &&
        !s.isSignatureSection) patterns <;>
    cases bandSearch (sections.filter fun s => !s.isSignatureSection) patterns <;>
    cases bandSearch (sections.filter fun s => s.isSignatureSection) patterns <;>
    cases firstHit patterns (combinedContent sections) <;>
    rfl

/-- Witness for C1 at a concrete tagged section list and pattern. -/
theorem C1_matcher_refines_spec_witness :
    (([fun s => if s = "x" then some "v" else none] : List PatternFun) ≠ [] ∧
      ([⟨0, 10, "x", true, false⟩] : List DocumentSection).countP
        (fun s => s.isCustomerInfoSection) ≤ 1) ∧
    findPatternInSections [⟨0, 10, "x", true, false⟩]
        [fun s => if s = "x" then some "v" else none] =
      findPatternInSections_spec [⟨0, 10, "x", true, false⟩]
        [fun s => if s = "x" then some "v" else none] :=
  ⟨⟨by simp, by simp⟩,
    C1_matcher_refines_spec _ _ (by simp) (by simp)⟩


/-! ## Helper lemmas: extractor confidence bounds (for C5) -/

theorem namePhaseCI_conf {env : NameEnv} {pats : List PatternFun}
    {sections : List DocumentSection} {r : FieldResult}
    (h : namePhaseCI env pats sections = some r) : r.confidence ≤ 100 := by
  unfold namePhaseCI at h
  cases hf : sections.find? (fun s => s.isCustomerInfoSection) with
  | none => rw [hf] at h; simp at h
  | some ci =>
    rw [hf] at h
    replace h : (match hit env.treasuryName ci.content with
      | some g => some (⟨jsTrim g, 98, midpoint ci⟩ : FieldResult)
      | none =>
        match hit env.title ci.content with
        | some g => some (⟨jsTrim g, 98, midpoint ci⟩ : FieldResult)
        | none =>
          (firstHit pats ci.content).map fun ig =>
            (⟨jsTrim ig.2, 95, midpoint ci⟩ : FieldResult)) = some r := h
    cases ht : hit env.treasuryName ci.content with
    | some g =>
      rw [ht] at h
      rw [← Option.some.inj h]
      norm_num
    | none =>
      rw [ht] at h
      cases ht2 : hit env.title ci.content with
      | some g =>
        rw [ht2] at h
        rw [← Option.some.inj h]
        norm_num
      | none =>
        rw [ht2] at h
        cases hh : firstHit pats ci.content with
        | none => rw [hh] at h; simp at h
        | some ig =>
          rw [hh] at h
          replace h : some (⟨jsTrim ig.2, 95, midpoint ci⟩ : FieldResult) = some r := h
          rw [← Option.some.inj h]
          norm_num

theorem namePhaseSection_conf {env : NameEnv} {pats : List PatternFun}
    {cT cP : ℚ} {s : DocumentSection} {r : FieldResult}
    (h : namePhaseSection env pats cT cP s = some r) :
    r.confidence = cT ∨ r.confidence = cP := by
  unfold namePhaseSection at h
  cases ht : hit env.title s.content with
  | some g =>
    rw [ht] at h
    exact Or.inl (by rw [← Option.some.inj h])
  | none =>
    rw [ht] at h
    cases hh : firstHit pats s.content with
    | none => rw [hh] at h; simp at h
    | some ig =>
      rw [hh] at h
      replace h : some (⟨jsTrim ig.2, cP, midpoint s⟩ : FieldResult) = some r := h
      exact Or.inr (by rw [← Option.some.inj h])

theorem namePhaseMatcher_conf {env : NameEnv} {pats : List PatternFun}
    {sections : List DocumentSection} {r : FieldResult}
    (h : namePhaseMatcher env pats sections = some r) : r.confidence ≤ 100 := by
  simp only [namePhaseMatcher] at h
  cases hm : (findPatternInSections sections pats).matched with
  | none => rw [hm] at h; simp at h
  | some m =>
    rw [hm, Option.map_some'] at h
    rw [← Option.some.inj h]
    exact min_le_right _ _

theorem namePhaseShape_conf {env : NameEnv}
    {sections : List DocumentSection} {r : FieldResult}
    (h : namePhaseShape env sections = some r) : r.confidence ≤ 100 := by
  unfold namePhaseShape at h
  obtain ⟨s, hmem, hs⟩ := List.exists_of_findSome?_eq_some h
  cases hg : hit env.nameShape s.content with
  | none => rw [hg] at hs; simp at hs
  | some g =>
    rw [hg, Option.map_some'] at hs
    rw [← Option.some.inj hs]
    simp only
    split
    · norm_num
    · split <;> norm_num

/-- C5 (amended): the confidence returned by each of the four extractors
never exceeds 100, for every oracle environment, registry pattern list and
section list. -/
theorem C5_confidence_le_100 (nenv : NameEnv) (aenv : AmountEnv)
    (ienv : IbanEnv) (senv : ServiceEnv) (trained : List PatternFun)
    (sections : List DocumentSection) :
    (extractCustomerName nenv trained sections).confidence ≤ 100 ∧
    (extractRefundAmount aenv trained sections).confidence ≤ 100 ∧
    (extractIBAN ienv trained sections).confidence ≤ 100 ∧
    (extractServiceNumber senv trained sections).confidence ≤ 100 := by
  refine ⟨?_, ?_, ?_, ?_⟩
  · simp only [extractCustomerName]
    cases h1 : namePhaseCI nenv (trained ++ nenv.nameDefaults) sections with
    | some r => exact namePhaseCI_conf h1
    | none =>
      cases h2 : ((sections.filter fun s =>
          decide (s.endPercentage ≤ 30) && !s.isSignatureSection).filter
            fun s => nameFieldFilter s.content).findSome?
          (namePhaseSection nenv (trained ++ nenv.nameDefaults) 95 90) with
      | some r =>
        obtain ⟨s, -, hs⟩ := List.exists_of_findSome?_eq_some h2
        rcases namePhaseSection_conf hs with hc | hc <;> rw [hc] <;> norm_num
      | none =>
        cases h3 : (sections.filter fun s =>
            decide (s.endPercentage ≤ 30) && !s.isSignatureSection).findSome?
            (namePhaseSection nenv (trained ++ nenv.nameDefaults) 85 80) with
        | some r =>
          obtain ⟨s, -, hs⟩ := List.exists_of_findSome?_eq_some h3
          rcases namePhaseSection_conf hs with hc | hc <;> rw [hc] <;> norm_num
        | none =>
          cases h4 : namePhaseMatcher nenv (trained ++ nenv.nameDefaults) sections with
          | some r => exact namePhaseMatcher_conf h4
          | none =>
            cases h5 : namePhaseShape nenv sections with
            | some r => exact namePhaseShape_conf h5
            | none => norm_num
  · simp only [extractRefundAmount]
    cases hm : (findPatternInSections sections (trained ++ aenv.amountDefaults)).matched with
    | some m => exact min_le_right _ _
    | none =>
      cases hf : sections.findSome?
          (fun s => (hit aenv.bareNumber s.content).map fun n => (s, n)) with
      | some p =>
        obtain ⟨s, n⟩ := p
        dsimp only
        split <;> norm_num
      | none => norm_num
  · simp only [extractIBAN]
    cases hm : (findPatternInSections sections (trained ++ ienv.ibanDefaults)).matched with
    | some m => exact min_le_right _ _
    | none =>
      cases hf : sections.findSome?
          (fun s => (hit ienv.saLoose s.content).map fun n => (s, n)) with
      | some p =>
        obtain ⟨s, n⟩ := p
        norm_num
      | none => norm_num
  · simp only [extractServiceNumber]
    cases hm : (findPatternInSections sections (trained ++ senv.serviceDefaults)).matched with
    | some m => exact min_le_right _ _
    | none =>
      cases hf : sections.findSome?
          (fun s => (hit senv.ftthLoose s.content).map fun n => (s, n)) with
      | some p =>
        obtain ⟨s, n⟩ := p
        dsimp only
        split <;> norm_num
      | none => norm_num

/-- C5 counterexample: a name found only in a signature-tagged section gets
the signature band's base 30 minus the 50-point signature penalty, and the
final `Math.min(confidence, 100)` clamps only from above, so
`extractCustomerName` reports the negative confidence −20. -/
theorem C5_counterexample :
    (extractCustomerName nameEnvCE [pCE] [sigSectionCE]).confidence < 0 := by
  have h0 : nameEnvCE.nameDefaults = [] := rfl
  have h1 : namePhaseCI nameEnvCE [pCE] [sigSectionCE] = none := rfl
  have h2 : findPatternInSections [sigSectionCE] [pCE] =
      ⟨midpoint sigSectionCE, some "q", 30 - 5 * ((0 : Nat) : ℚ), some "signature"⟩ := rfl
  have h3 : jsTrim "q" = "q" := rfl
  have h4 : ("q" : String).length = 1 := rfl
  have h5 : ∀ s, nameEnvCE.capShape s = false := fun _ => rfl
  have h6 : ∀ s, nameEnvCE.hasAlEl s = false := fun _ => rfl
  have h7 : (sigSectionCE.endPercentage ≤ 30) = False := by
    simp [sigSectionCE]
    norm_num
  have hs1 : ("signature" = "customerInfo") = False := by simp
  have hs2 : ("signature" = "top") = False := by simp
  norm_num [extractCustomerName, h0, h1, namePhaseMatcher, h2, h3, h4, h5, h6, h7,
    hs1, hs2, min_def]

/-! ## C2: customer-information priority of `extractCustomerName` -/


theorem namePhaseCI_spec {env : NameEnv} {pats : List PatternFun}
    {sections : List DocumentSection} {ci : DocumentSection} {r : FieldResult}
    (h1 : sections.find? (fun s => s.isCustomerInfoSection) = some ci)
    (h : namePhaseCI env pats sections = some r) :
    r.value ∈ ciNameCandidates env pats ci.content ∧
      (r.confidence = 98 ∨ r.confidence = 95) ∧ r.position = midpoint ci := by
  unfold namePhaseCI at h
  rw [h1] at h
  replace h : (match hit env.treasuryName ci.content with
    | some g => some (⟨jsTrim g, 98, midpoint ci⟩ : FieldResult)
    | none =>
      match hit env.title ci.content with
      | some g => some (⟨jsTrim g, 98, midpoint ci⟩ : FieldResult)
      | none =>
        (firstHit pats ci.content).map fun ig =>
          (⟨jsTrim ig.2, 95, midpoint ci⟩ : FieldResult)) = some r := h
  cases ht : hit env.treasuryName ci.content with
  | some g =>
    rw [ht] at h
    rw [← Option.some.inj h]
    exact ⟨by simp [ciNameCandidates, ht], Or.inl rfl, rfl⟩
  | none =>
    rw [ht] at h
    cases ht2 : hit env.title ci.content with
    | some g =>
      rw [ht2] at h
      rw [← Option.some.inj h]
      exact ⟨by simp [ciNameCandidates, ht, ht2], Or.inl rfl, rfl⟩
    | none =>
      rw [ht2] at h
      cases hh : firstHit pats ci.content with
      | none => rw [hh] at h; simp at h
      | some ig =>
        rw [hh] at h
        replace h : some (⟨jsTrim ig.2, 95, midpoint ci⟩ : FieldResult) = some r := h
        rw [← Option.some.inj h]
        exact ⟨by simp [ciNameCandidates, ht, ht2, hh], Or.inr rfl, rfl⟩

/-- C2: when the divided sections contain a customer-info-tagged section
whose content matches one of the customer-name label/title patterns (so the
customer-info phase produces a value), `extractCustomerName` returns a name
extracted from the customer-information section — never the signature
section's name, whenever that name differs from every customer-info
candidate — at confidence 98 or 95, in particular strictly above 90, with
the customer-info section midpoint as position. -/
theorem C2_name_from_customer_info (env : NameEnv) (trained : List PatternFun)
    (sections : List DocumentSection) (ci : DocumentSection) (sigName : String)
    (h1 : sections.find? (fun s => s.isCustomerInfoSection) = some ci)
    (h2 : (namePhaseCI env (trained ++ env.nameDefaults) sections).isSome = true)
    (h3 : ∀ v ∈ ciNameCandidates env (trained ++ env.nameDefaults) ci.content,
      v ≠ sigName) :
    (extractCustomerName env trained sections).value ≠ sigName ∧
    90 < (extractCustomerName env trained sections).confidence ∧
    (extractCustomerName env trained sections).position = midpoint ci ∧
    (extractCustomerName env trained sections).value ∈
      ciNameCandidates env (trained ++ env.nameDefaults) ci.content := by
  cases hci : namePhaseCI env (trained ++ env.nameDefaults) sections with
  | none => rw [hci] at h2; simp at h2
  | some r0 =>
    have hext : extractCustomerName env trained sections = r0 := by
      simp only [extractCustomerName, hci]
    obtain ⟨hval, hconf, hpos⟩ := namePhaseCI_spec h1 hci
    rw [hext]
    refine ⟨h3 _ hval, ?_, hpos, hval⟩
    rcases hconf with hc | hc <;> rw [hc] <;> norm_num


/-- Witness for C2 at a concrete document with a different signature name. -/
theorem C2_name_from_customer_info_witness :
    (List.find? (fun s => s.isCustomerInfoSection) [ciSecCE] = some ciSecCE ∧
      (namePhaseCI nameEnvCE2 ([] ++ nameEnvCE2.nameDefaults) [ciSecCE]).isSome = true ∧
      (∀ v ∈ ciNameCandidates nameEnvCE2 ([] ++ nameEnvCE2.nameDefaults) ciSecCE.content,
        v ≠ "Karim")) ∧
    ((extractCustomerName nameEnvCE2 [] [ciSecCE]).value ≠ "Karim" ∧
      90 < (extractCustomerName nameEnvCE2 [] [ciSecCE]).confidence ∧
      (extractCustomerName nameEnvCE2 [] [ciSecCE]).position = midpoint ciSecCE ∧
      (extractCustomerName nameEnvCE2 [] [ciSecCE]).value ∈
        ciNameCandidates nameEnvCE2 ([] ++ nameEnvCE2.nameDefaults) ciSecCE.content) :=
  ⟨⟨rfl, rfl, by decide⟩,
    C2_name_from_customer_info nameEnvCE2 [] [ciSecCE] ciSecCE "Karim" rfl rfl (by decide)⟩

/-! ## Helper lemmas: pattern learning (for C6, C7, C8) -/


theorem present_iff (db : List ExtractionPattern) (r : String) :
    db.any (fun p => p.patternRegex = r) = true ↔ r ∈ regexes db := by
  simp [regexes, List.any_eq_true, List.mem_map]

theorem regexes_append (db1 db2 : List ExtractionPattern) :
    regexes (db1 ++ db2) = regexes db1 ++ regexes db2 := by
  simp [regexes]

theorem mem_regexes_insertIfNew (db : List ExtractionPattern) (ft r : String) :
    r ∈ regexes (insertIfNew db ft r) := by
  unfold insertIfNew
  by_cases hp : db.any (fun p => p.patternRegex = r) = true
  · rw [if_pos hp]
    exact (present_iff db r).mp hp
  · rw [if_neg hp, regexes_append]
    simp [regexes]

theorem regexes_mono_insertIfNew (db : List ExtractionPattern) (ft r r' : String)
    (h : r' ∈ regexes db) : r' ∈ regexes (insertIfNew db ft r) := by
  unfold insertIfNew
  by_cases hp : db.any (fun p => p.patternRegex = r) = true
  · rw [if_pos hp]; exact h
  · rw [if_neg hp, regexes_append]
    exact List.mem_append_left _ h

theorem regexes_mono_learnStep (ft v line : String) (db : List ExtractionPattern)
    (r' : String) (h : r' ∈ regexes db) :
    r' ∈ regexes (learnStep ft v db line) := by
  unfold learnStep
  cases hs : synthFromLine ft line v with
  | none => exact h
  | some r => exact regexes_mono_insertIfNew db ft r r' h

theorem regexes_mono_foldl (ft v : String) (lines : List String) :
    ∀ (db : List ExtractionPattern) (r' : String), r' ∈ regexes db →
      r' ∈ regexes (lines.foldl (learnStep ft v) db) := by
  induction lines with
  | nil => intro db r' h; exact h
  | cons line lines ih =>
    intro db r' h
    exact ih _ r' (regexes_mono_learnStep ft v line db r' h)

theorem learnStep_adds (ft v line : String) (db : List ExtractionPattern)
    (r : String) (hs : synthFromLine ft line v = some r) :
    r ∈ regexes (learnStep ft v db line) := by
  unfold learnStep
  rw [hs]
  exact mem_regexes_insertIfNew db ft r

theorem foldl_adds (ft v : String) (lines : List String) :
    ∀ (db : List ExtractionPattern), ∀ line ∈ lines, ∀ r,
      synthFromLine ft line v = some r →
        r ∈ regexes (lines.foldl (learnStep ft v) db) := by
  induction lines with
  | nil => intro db line h; cases h
  | cons l lines ih =>
    intro db line hmem r hs
    rcases List.mem_cons.mp hmem with rfl | hmem
    · exact regexes_mono_foldl ft v lines _ r (learnStep_adds ft v line db r hs)
    · exact ih _ line hmem r hs

theorem foldl_stable (ft v : String) (lines : List String) :
    ∀ (db : List ExtractionPattern),
      (∀ line ∈ lines, ∀ r, synthFromLine ft line v = some r → r ∈ regexes db) →
      lines.foldl (learnStep ft v) db = db := by
  induction lines with
  | nil => intro db _; rfl
  | cons l lines ih =>
    intro db hpresent
    have hstep : learnStep ft v db l = db := by
      unfold learnStep
      cases hs : synthFromLine ft l v with
      | none => rfl
      | some r =>
        show insertIfNew db ft r = db
        unfold insertIfNew
        rw [if_pos ((present_iff db r).mpr
          (hpresent l (List.mem_cons_self _ _) r hs))]
    simp only [List.foldl_cons, hstep]
    exact ih db fun line hmem r hs =>
      hpresent line (List.mem_cons_of_mem _ hmem) r hs

theorem nodup_learnStep (ft v line : String) (db : List ExtractionPattern)
    (h : (regexes db).Nodup) : (regexes (learnStep ft v db line)).Nodup := by
  unfold learnStep
  cases hs : synthFromLine ft line v with
  | none => exact h
  | some r =>
    show (regexes (insertIfNew db ft r)).Nodup
    unfold insertIfNew
    by_cases hp : db.any (fun p => p.patternRegex = r) = true
    · rw [if_pos hp]; exact h
    · rw [if_neg hp, regexes_append]
      rw [List.nodup_append]
      refine ⟨h, by simp [regexes], ?_⟩
      intro a ha hmem
      have : a = r := by simpa [regexes] using hmem
      subst this
      exact hp ((present_iff db a).mpr ha)

theorem nodup_foldl (ft v : String) (lines : List String) :
    ∀ (db : List ExtractionPattern), (regexes db).Nodup →
      (regexes (lines.foldl (learnStep ft v) db)).Nodup := by
  induction lines with
  | nil => intro db h; exact h
  | cons l lines ih =>
    intro db h
    exact ih _ (nodup_learnStep ft v l db h)

/-- C6 (amended): `learnNewPattern` is idempotent — the second identical
call inserts nothing — and never creates duplicate `patternRegex` entries;
a single call may, however, insert one pattern per qualifying context line
(see the counterexample). -/
theorem C6_learn_idempotent (db : List ExtractionPattern)
    (ft ctx v : String) :
    learnNewPattern (learnNewPattern db ft ctx v) ft ctx v =
      learnNewPattern db ft ctx v ∧
    ((regexes db).Nodup → (regexes (learnNewPattern db ft ctx v)).Nodup) := by
  constructor
  · unfold learnNewPattern
    exact foldl_stable ft v (jsSplit ctx "\n") _
      (fun line hmem r hs => foldl_adds ft v (jsSplit ctx "\n") db line hmem r hs)
  · intro h
    exact nodup_foldl ft v (jsSplit ctx "\n") db h

/-- Witness for C6's amended statement. -/
theorem C6_learn_idempotent_witness :
    (regexes ([] : List ExtractionPattern)).Nodup ∧
    learnNewPattern (learnNewPattern [] "customerName" "aa: John" "John")
        "customerName" "aa: John" "John" =
      learnNewPattern [] "customerName" "aa: John" "John" ∧
    (regexes (learnNewPattern [] "customerName" "aa: John" "John")).Nodup :=
  ⟨by simp [regexes],
    (C6_learn_idempotent [] "customerName" "aa: John" "John").1,
    (C6_learn_idempotent [] "customerName" "aa: John" "John").2 (by simp [regexes])⟩

/-- C6 counterexample: with a context whose two lines both contain the
corrected value after different prefixes, the loop over all lines inserts
two patterns in the very first call (the claim allows at most one new
pattern in total across two identical calls). -/
theorem C6_counterexample :
    ¬ ((learnNewPattern
          (learnNewPattern ([] : List ExtractionPattern) "customerName"
            "aa: John\nbb: John" "John")
          "customerName" "aa: John\nbb: John" "John").length ≤
        ([] : List ExtractionPattern).length + 1) := by
  decide

theorem foldl_insertion (ft v : String) (lines : List String) :
    ∀ db : List ExtractionPattern,
      ∃ ns : List ExtractionPattern,
        lines.foldl (learnStep ft v) db = db ++ ns ∧
        ∀ p ∈ ns, p.fieldType = ft ∧ p.priority = 5 ∧ p.successRate = 60 ∧
          p.usageCount = 1 ∧
          (∃ line ∈ lines, synthFromLine ft line v = some p.patternRegex) ∧
          p.patternRegex ∉ regexes db := by
  induction lines with
  | nil => intro db; exact ⟨[], by simp, by simp⟩
  | cons l lines ih =>
    intro db
    cases hs : synthFromLine ft l v with
    | none =>
      obtain ⟨ns, heq, hprops⟩ := ih db
      refine ⟨ns, ?_, ?_⟩
      · simp only [List.foldl_cons]
        have hstep : learnStep ft v db l = db := by
          unfold learnStep; rw [hs]
        rw [hstep]; exact heq
      · intro p hp
        obtain ⟨h1, h2, h3, h4, ⟨line, hline, hsyn⟩, h6⟩ := hprops p hp
        exact ⟨h1, h2, h3, h4, ⟨line, List.mem_cons_of_mem _ hline, hsyn⟩, h6⟩
    | some r =>
      by_cases hp : db.any (fun pp => pp.patternRegex = r) = true
      · have hstep : learnStep ft v db l = db := by
          unfold learnStep; rw [hs]
          show insertIfNew db ft r = db
          unfold insertIfNew; rw [if_pos hp]
        obtain ⟨ns, heq, hprops⟩ := ih db
        refine ⟨ns, ?_, ?_⟩
        · simp only [List.foldl_cons]
          rw [hstep]; exact heq
        · intro p hp2
          obtain ⟨h1, h2, h3, h4, ⟨line, hline, hsyn⟩, h6⟩ := hprops p hp2
          exact ⟨h1, h2, h3, h4, ⟨line, List.mem_cons_of_mem _ hline, hsyn⟩, h6⟩
      · have hstep : learnStep ft v db l = db ++ [⟨ft, r, 5, 60, 1⟩] := by
          unfold learnStep; rw [hs]
          show insertIfNew db ft r = _
          unfold insertIfNew; rw [if_neg hp]
        obtain ⟨ns, heq, hprops⟩ := ih (db ++ [⟨ft, r, 5, 60, 1⟩])
        refine ⟨⟨ft, r, 5, 60, 1⟩ :: ns, ?_, ?_⟩
        · simp only [List.foldl_cons]
          rw [hstep, heq]
          simp
        · intro p hp2
          rcases List.mem_cons.mp hp2 with rfl | hp2
          · refine ⟨rfl, rfl, rfl, rfl, ⟨l, List.mem_cons_self _ _, hs⟩, ?_⟩
            intro hmem
            exact hp ((present_iff db r).mpr hmem)
          · obtain ⟨h1, h2, h3, h4, ⟨line, hline, hsyn⟩, h6⟩ := hprops p hp2
            refine ⟨h1, h2, h3, h4, ⟨line, List.mem_cons_of_mem _ hline, hsyn⟩, ?_⟩
            intro hmem
            exact h6 (by rw [regexes_append]; exact List.mem_append_left _ hmem)

/-- C7 (amended): `learnNewPattern` appends exactly those synthesized
patterns whose regex string is not yet stored in the registry under **any**
field type (the duplicate check is global, not per field type), and every
inserted pattern carries priority 5, successRate 60 and usageCount 1;
conversely every synthesized regex is present afterwards. -/
theorem C7_learn_insertion (db : List ExtractionPattern) (ft ctx v : String) :
    (∃ ns, learnNewPattern db ft ctx v = db ++ ns ∧
      ∀ p ∈ ns, p.fieldType = ft ∧ p.priority = 5 ∧ p.successRate = 60 ∧
        p.usageCount = 1 ∧ p.patternRegex ∈ synthRegexes ft ctx v ∧
        p.patternRegex ∉ regexes db) ∧
    (∀ r ∈ synthRegexes ft ctx v, r ∈ regexes (learnNewPattern db ft ctx v)) := by
  constructor
  · obtain ⟨ns, heq, hprops⟩ := foldl_insertion ft v (jsSplit ctx "\n") db
    refine ⟨ns, heq, ?_⟩
    intro p hp
    obtain ⟨h1, h2, h3, h4, ⟨line, hline, hsyn⟩, h6⟩ := hprops p hp
    refine ⟨h1, h2, h3, h4, ?_, h6⟩
    rw [synthRegexes, List.mem_filterMap]
    exact ⟨line, hline, hsyn⟩
  · intro r hr
    rw [synthRegexes, List.mem_filterMap] at hr
    obtain ⟨line, hline, hsyn⟩ := hr
    exact foldl_adds ft v (jsSplit ctx "\n") db line hline r hsyn


/-- Witness for C7's amended statement at a concrete call. -/
theorem C7_learn_insertion_witness :
    (∃ ns, learnNewPattern [] "customerName" "ab: John" "John" = [] ++ ns ∧
      ∀ p ∈ ns, p.fieldType = "customerName" ∧ p.priority = 5 ∧
        p.successRate = 60 ∧ p.usageCount = 1 ∧
        p.patternRegex ∈ synthRegexes "customerName" "ab: John" "John" ∧
        p.patternRegex ∉ regexes []) ∧
    (∀ r ∈ synthRegexes "customerName" "ab: John" "John",
      r ∈ regexes (learnNewPattern [] "customerName" "ab: John" "John")) :=
  C7_learn_insertion [] "customerName" "ab: John" "John"

/-- C7 counterexample: no `customerName` pattern with the synthesized regex
exists, the claim therefore demands the pattern be inserted, yet the
global duplicate check (an identical regex under `refundAmount`) blocks the
insertion and the registry is returned unchanged. -/
theorem C7_counterexample :
    synthFromLine "customerName" "ab: John" "John" =
      some ("ab:" ++ "\\s*([A-Za-z\\s.\x27-]+)") ∧
    (dbCE7.all fun p =>
      !(decide (p.fieldType = "customerName") &&
        decide (p.patternRegex = "ab:" ++ "\\s*([A-Za-z\\s.\x27-]+)"))) = true ∧
    learnNewPattern dbCE7 "customerName" "ab: John" "John" = dbCE7 := by
  refine ⟨by decide, by decide, by decide⟩

theorem mem_learnNewPattern (db : List ExtractionPattern) (ft ctx v : String) :
    ∀ p ∈ learnNewPattern db ft ctx v, p ∈ db ∨ p.successRate = 60 := by
  intro p hp
  obtain ⟨ns, heq, hprops⟩ := foldl_insertion ft v (jsSplit ctx "\n") db
  unfold learnNewPattern at hp
  rw [heq] at hp
  rcases List.mem_append.mp hp with h | h
  · exact Or.inl h
  · exact Or.inr (hprops p h).2.2.1

theorem mem_learnPhase (db : List ExtractionPattern) (ft corr : String)
    (ctx : Option String) :
    ∀ p ∈ learnPhase db ft corr ctx, p ∈ db ∨ p.successRate = 60 := by
  intro p hp
  unfold learnPhase at hp
  cases ctx with
  | none => exact Or.inl hp
  | some c =>
    replace hp : p ∈ (if c = "" then db
        else learnNewPattern (learnNewPattern db ft c corr) ft c corr) := hp
    by_cases hc : c = ""
    · rw [if_pos hc] at hp
      exact Or.inl hp
    · rw [if_neg hc] at hp
      rcases mem_learnNewPattern _ _ _ _ p hp with h1 | h60
      · exact mem_learnNewPattern _ _ _ _ p h1
      · exact Or.inr h60

/-- C8: `recordCorrection` is the success-rate update applied to the
registry state left by the learning phase: every stored pattern of the
field type whose regex (as the case-insensitive matching oracle sees it)
matches the original value gets
`successRate := successRate·(1−α) + (orig == corr ? 100 : 0)·α` with
α = 1/10 and `usageCount + 1`; all other patterns are returned unchanged;
and success rates stay within [0, 100] when they started there (patterns
inserted by the learning phase start at 60). -/
theorem C8_success_rate_update (rxMatches : String → String → Bool)
    (db : List ExtractionPattern) (ft orig corr : String) (ctx : Option String)
    (hdb : ∀ p ∈ db, 0 ≤ p.successRate ∧ p.successRate ≤ 100) :
    ((recordCorrection rxMatches db ft orig corr ctx).length =
      (learnPhase db ft corr ctx).length) ∧
    (∀ i, ∀ hi : i < (learnPhase db ft corr ctx).length,
      ∀ hi2 : i < (recordCorrection rxMatches db ft orig corr ctx).length,
      (recordCorrection rxMatches db ft orig corr ctx).get ⟨i, hi2⟩ =
        (if ((learnPhase db ft corr ctx).get ⟨i, hi⟩).fieldType = ft &&
            rxMatches ((learnPhase db ft corr ctx).get ⟨i, hi⟩).patternRegex orig
         then { (learnPhase db ft corr ctx).get ⟨i, hi⟩ with
                successRate :=
                  ((learnPhase db ft corr ctx).get ⟨i, hi⟩).successRate *
                      (1 - learningRate) +
                    (if orig = corr then 100 else 0) * learningRate,
                usageCount :=
                  ((learnPhase db ft corr ctx).get ⟨i, hi⟩).usageCount + 1 }
         else (learnPhase db ft corr ctx).get ⟨i, hi⟩)) ∧
    (∀ p ∈ recordCorrection rxMatches db ft orig corr ctx,
      0 ≤ p.successRate ∧ p.successRate ≤ 100) := by
  refine ⟨?_, ?_, ?_⟩
  · simp [recordCorrection, updatePatternSuccessRates]
  · intro i hi hi2
    exact List.get_map _
  · intro p hp
    unfold recordCorrection updatePatternSuccessRates at hp
    obtain ⟨q, hq, rfl⟩ := List.mem_map.mp hp
    have hqb : 0 ≤ q.successRate ∧ q.successRate ≤ 100 := by
      rcases mem_learnPhase db ft corr ctx q hq with hmem | h60
      · exact hdb q hmem
      · rw [h60]; norm_num
    by_cases hcond : (q.fieldType = ft && rxMatches q.patternRegex orig) = true
    · rw [if_pos hcond]
      simp only [learningRate]
      by_cases heq : orig = corr
      · rw [if_pos heq]
        constructor <;> nlinarith [hqb.1, hqb.2]
      · rw [if_neg heq]
        constructor <;> nlinarith [hqb.1, hqb.2]
    · rw [if_neg hcond]
      exact hqb


/-- Witness for C8: a single matching pattern starting at rate 80. -/
theorem C8_success_rate_update_witness :
    (∀ p ∈ dbCE8, 0 ≤ p.successRate ∧ p.successRate ≤ 100) ∧
    (∀ p ∈ recordCorrection (fun _ _ => true) dbCE8 "customerName" "y" "z" none,
      0 ≤ p.successRate ∧ p.successRate ≤ 100) :=
  ⟨by decide,
    (C8_success_rate_update (fun _ _ => true) dbCE8 "customerName" "y" "z" none
      (by decide)).2.2⟩

/-- C10: `getPatterns` returns the empty list when the service is not yet
initialized and when the field type has no registry entry; the embedding is
a total function, mirroring that the source method has no throwing path. -/
theorem C10_getPatterns_safe :
    (∀ (reg : List (String × List PatternFun)) (ft : String),
      getPatterns { initialized := false, patternRegistry := reg } ft = []) ∧
    (∀ (st : TrainingServiceState) (ft : String),
      st.patternRegistry.lookup ft = none → getPatterns st ft = []) := by
  constructor
  · intro reg ft
    rfl
  · intro st ft h
    unfold getPatterns
    by_cases hb : st.initialized
    · simp [hb, h]
    · simp [hb]

/-- Witness for C10 on an initialized service with an empty registry. -/
theorem C10_getPatterns_safe_witness :
    (([] : List (String × List PatternFun)).lookup "customerName" = none) ∧
    getPatterns { initialized := true, patternRegistry := [] } "customerName" = [] :=
  ⟨rfl, C10_getPatterns_safe.2 { initialized := true, patternRegistry := [] }
    "customerName" rfl⟩

end Salamrfnd
